import Mathlib

/-!
# hass: connection tracker and relay orchestrator (`main.go`)

A shallow embedding of the `Proxyer` type of `main.go` and of its methods
`NewProxyer`, `ConnCount`, `pushConnPair`, `popConnPair` and `DoProxy`.

* Go's `int` is the 64-bit two's-complement integer of the usual targets; it is an
  `Int` kept in range by `wrapInt`, so `p.ConnTotal++` wraps as it does in Go.
* `map[int]*ConnTrack` is an association list without an entry order of its own:
  `m[k] = v` drops any entry of `k` and adds the new one, `delete(m, k)` drops the
  entries of `k`, `len(m)` is the number of entries.
* Every tracker method also yields the list of mutex operations and shared-memory
  accesses it performs, in program order.
* `DoProxy` is run in isolation: what it calls outside `main.go` (`ConnBackend`, the
  clock, the backend handle, `CopyNetIO`, the scheduler of `select`) is carried by an
  `Env` value.
* A `net.Conn` carries its dynamic type as far as `DoProxy` tests it: the assertion
  `conn.(*net.TCPConn)` panics on any other connection, the deferred calls registered
  so far run, and `DoProxy` does not return.
-/

namespace Hass

/-! ## Machine integers -/

/-- Number of bits of Go's `int`. -/
def intBits : Nat := 64

/-- Largest value of Go's `int`. -/
def maxInt : Int := 2 ^ (intBits - 1) - 1

/-- Smallest value of Go's `int`. -/
def minInt : Int := -(2 ^ (intBits - 1))

/-- Two's-complement wrap-around of an integer into the range of Go's `int`. -/
def wrapInt (x : Int) : Int :=
  (x + 2 ^ (intBits - 1)) % 2 ^ intBits - 2 ^ (intBits - 1)

/-! ## Data model -/

/-- Record of one proxied connection (`type ConnTrack struct`). -/
structure ConnTrack where
  LocalLocalAddr : String
  LocalRemoteAddr : String
  RemoteLocalAddr : String
  RemoteRemoteAddr : String
  Target : String
  Latency : Int
deriving DecidableEq, Repr

/-- The part of `*Config` that `main.go` reads: `cfg.Backend.Timeout`. -/
structure Config where
  Timeout : Int
deriving DecidableEq, Repr

/-- A value of type `map[int]*ConnTrack`. -/
abbrev ConnMap := List (Int × ConnTrack)

/-- Lookup `m[k]`, with `none` for an absent key. -/
def ConnMap.lookup (m : ConnMap) (k : Int) : Option ConnTrack :=
  (m.find? (fun e => e.1 == k)).map (fun e => e.2)

/-- The builtin `delete(m, k)`. -/
def ConnMap.delete (m : ConnMap) (k : Int) : ConnMap :=
  m.filter (fun e => e.1 != k)

/-- The assignment `m[k] = v`. -/
def ConnMap.assign (m : ConnMap) (k : Int) (v : ConnTrack) : ConnMap :=
  (k, v) :: ConnMap.delete m k

/-- The builtin `len(m)`. -/
def ConnMap.len (m : ConnMap) : Nat := m.length

/-- Keys of the map. -/
def ConnMap.keys (m : ConnMap) : List Int := m.map (fun e => e.1)

/-- The data fields of `type Proxyer struct`; the mutex is followed through `Act`. -/
structure Proxyer where
  cfg : Config
  ConnTracks : ConnMap
  ConnTotal : Int
deriving DecidableEq, Repr

/-- What a tracker method does to the mutex and to the shared fields, one step each. -/
inductive Act where
  | Lock
  | Unlock
  | readConnTotal
  | writeConnTotal
  | mapLen
  | mapAssign (connId : Int)
  | mapDelete (connId : Int)
deriving DecidableEq, Repr

/-- Outcome of a tracker method: returned value, tracker afterwards, steps performed. -/
structure Ret (α : Type) where
  val : α
  p : Proxyer
  acts : List Act
deriving Repr

/-! ## Tracker operations -/

/-- Constructor `NewProxyer(config)`. -/
def NewProxyer (config : Config) : Proxyer :=
  { cfg := config, ConnTracks := [], ConnTotal := 0 }

/-- Method `ConnCount`: `return len(p.ConnTracks)`. -/
def ConnCount (p : Proxyer) : Ret Nat :=
  { val := ConnMap.len p.ConnTracks, p := p, acts := [Act.mapLen] }

/-- Method `pushConnPair`. -/
def pushConnPair (p : Proxyer) (conntrack : ConnTrack) : Ret Int :=
  -- p.lock.Lock(); defer p.lock.Unlock()
  let connId := p.ConnTotal
  let p1 : Proxyer := { p with ConnTotal := wrapInt (p.ConnTotal + 1) }
  let p2 : Proxyer := { p1 with ConnTracks := ConnMap.assign p1.ConnTracks connId conntrack }
  { val := connId, p := p2,
    acts := [Act.Lock, Act.readConnTotal, Act.writeConnTotal, Act.mapAssign connId, Act.Unlock] }

/-- Method `popConnPair`. -/
def popConnPair (p : Proxyer) (connId : Int) : Ret Unit :=
  -- p.lock.Lock(); defer p.lock.Unlock()
  let p1 : Proxyer := { p with ConnTracks := ConnMap.delete p.ConnTracks connId }
  { val := (), p := p1, acts := [Act.Lock, Act.mapDelete connId, Act.Unlock] }

/-- Scan of a step list: is the mutex held at every access to a shared field, and
released at the end? The flag is the state of the mutex before the first step. -/
def lockedAccesses : Bool → List Act → Bool
  | held, [] => !held
  | held, Act.Lock :: rest => !held && lockedAccesses true rest
  | held, Act.Unlock :: rest => held && lockedAccesses false rest
  | held, _ :: rest => held && lockedAccesses held rest

/-! ## Sequences of tracker calls -/

/-- One call on the tracker. -/
inductive Call where
  | push (conntrack : ConnTrack)
  | pop (connId : Int)
deriving DecidableEq, Repr

/-- What a call did: the id a push returned, or the id a pop was given. -/
inductive Done where
  | pushed (connId : Int)
  | popped (connId : Int)
deriving DecidableEq, Repr

/-- Run one call. -/
def step (p : Proxyer) : Call → Proxyer × Done
  | Call.push r => ((pushConnPair p r).p, Done.pushed (pushConnPair p r).val)
  | Call.pop k => ((popConnPair p k).p, Done.popped k)

/-- Run a sequence of calls, one at a time; the log lists what each call did. -/
def exec (p : Proxyer) : List Call → Proxyer × List Done
  | [] => (p, [])
  | c :: cs => ((exec (step p c).1 cs).1, (step p c).2 :: (exec (step p c).1 cs).2)

/-- Number of `pushConnPair` calls in a sequence. -/
def numPush : List Call → Nat
  | [] => 0
  | Call.push _ :: cs => numPush cs + 1
  | Call.pop _ :: cs => numPush cs

/-- Ids returned by the pushes of a log, in call order. -/
def pushedIds : List Done → List Int
  | [] => []
  | Done.pushed k :: l => k :: pushedIds l
  | Done.popped _ :: l => pushedIds l

/-- Ids passed to the pops of a log. -/
def poppedIds : List Done → List Int
  | [] => []
  | Done.pushed _ :: l => poppedIds l
  | Done.popped k :: l => k :: poppedIds l

/-- Ids returned by a push of the log and not passed to a pop later in the log, one
for each such push. -/
def liveIds : List Done → List Int
  | [] => []
  | Done.pushed k :: l => if k ∈ poppedIds l then liveIds l else k :: liveIds l
  | Done.popped _ :: l => liveIds l

/-! ## Collaborators of `DoProxy` -/

/-- A value of Go's `error` interface other than `nil`. -/
structure Error where
  msg : String
deriving DecidableEq, Repr

/-- A value of the interface `net.Conn`, by what `DoProxy` uses of it:
`LocalAddr().String()`, `RemoteAddr().String()`, and whether its dynamic type is
`*net.TCPConn`, which the assertion `conn.(*net.TCPConn)` tests. -/
structure Conn where
  LocalAddr : String
  RemoteAddr : String
  isTCPConn : Bool
deriving DecidableEq, Repr

/-- The `*Target` argument: `Addr()` and the field `request` (`none` for `nil`), a
request being the bytes it writes. -/
structure Target where
  Addr : String
  request : Option (List Nat)
deriving DecidableEq, Repr

/-- Modelled from the spec: the backend handle returned by `ConnBackend`, whose type is
declared outside `main.go`; an active-connection gauge and cumulative in/out byte
counters. -/
structure Server where
  ConnCount : Int
  InBytes : Int
  OutBytes : Int
deriving DecidableEq, Repr

/-- Modelled from the spec: `server.IncreseConnCount()`, defined outside `main.go`, adds
one to the active-connection gauge. -/
def Server.IncreseConnCount (s : Server) : Server :=
  { s with ConnCount := s.ConnCount + 1 }

/-- Modelled from the spec: `server.DecreseConnCount()`, defined outside `main.go`,
takes one from the active-connection gauge. -/
def Server.DecreseConnCount (s : Server) : Server :=
  { s with ConnCount := s.ConnCount - 1 }

/-- Modelled from the spec: `server.AddInBytes(n)`, defined outside `main.go`,
accumulates `n` in the in-bytes counter. -/
def Server.AddInBytes (s : Server) (n : Int) : Server :=
  { s with InBytes := s.InBytes + n }

/-- Modelled from the spec: `server.AddOutBytes(n)`, defined outside `main.go`,
accumulates `n` in the out-bytes counter. -/
def Server.AddOutBytes (s : Server) (n : Int) : Server :=
  { s with OutBytes := s.OutBytes + n }

/-- A channel `chan int64`: the values sent on it and not yet received, oldest first. -/
abbrev Chan := List Int

/-- Modelled from the spec: `CopyNetIO(dst, src, ch, label, timeout)`, defined outside
`main.go`, copies until end of stream, error or timeout and then sends the number of
bytes copied on `ch`, exactly once. -/
def CopyNetIO (copied : Int) (ch : Chan) : Chan := ch ++ [copied]

/-- The two relay directions, named by the labels `DoProxy` gives them. -/
inductive Direction where
  | clientToShadowsocks
  | shadowsocksToClient
deriving DecidableEq, Repr

/-- What `DoProxy` calls outside `main.go`, for one execution. -/
structure Env where
  /-- result of `ConnBackend(p.cfg, tgt)` -/
  ConnBackend : Except Error (Conn × Server)
  /-- value of `int64(time.Since(startAt) / time.Millisecond)` -/
  latency : Int
  /-- result of `tgt.request.Write(ssConn)`, which `DoProxy` drops -/
  requestWrite : Option Error
  /-- bytes the copy from the client to the backend moved -/
  inCopied : Int
  /-- bytes the copy from the backend to the client moved -/
  outCopied : Int
  /-- iteration `i` of the receive loop takes `inChan` when both channels hold a value -/
  pickIn : Nat → Bool

/-- The calls `DoProxy` makes, in the order it makes them. -/
inductive Event where
  | ConnBackend
  | pushConnPair (connId : Int)
  | IncreseConnCount
  | requestWrite (bytes : List Nat)
  | goCopyNetIO (d : Direction) (timeout : Int)
  | AddInBytes (n : Int)
  | AddOutBytes (n : Int)
  | DecreseConnCount
  | popConnPair (connId : Int)
  | ssConnClose
deriving DecidableEq, Repr

/-- Is the event one of the four metric operations of the backend handle? -/
def Event.isMetric : Event → Bool
  | Event.IncreseConnCount => true
  | Event.DecreseConnCount => true
  | Event.AddInBytes _ => true
  | Event.AddOutBytes _ => true
  | _ => false

/-- Is the event the start of a relay task? -/
def Event.isGo : Event → Bool
  | Event.goCopyNetIO _ _ => true
  | _ => false

/-- Is the event a write of pre-read request bytes to the backend stream? -/
def Event.isWrite : Event → Bool
  | Event.requestWrite _ => true
  | _ => false

/-- Is the event one of the three releases that `DoProxy` defers? -/
def Event.isRelease : Event → Bool
  | Event.DecreseConnCount => true
  | Event.popConnPair _ => true
  | Event.ssConnClose => true
  | _ => false

/-- Is the event an `AddInBytes` call? -/
def Event.isAddIn : Event → Bool
  | Event.AddInBytes _ => true
  | _ => false

/-- Is the event an `AddOutBytes` call? -/
def Event.isAddOut : Event → Bool
  | Event.AddOutBytes _ => true
  | _ => false

/-- A call registered by a `defer` statement of `DoProxy`. -/
inductive Deferred where
  | ssConnClose
  | popConnPair (connId : Int)
  | DecreseConnCount
deriving DecidableEq, Repr

/-- What a running `DoProxy` acts on. -/
structure Frame where
  p : Proxyer
  server : Server
  inChan : Chan
  outChan : Chan
  trace : List Event
deriving DecidableEq, Repr

/-- How an execution of `DoProxy` ends: it returns its `error` result (`none` for
`nil`), or it stays blocked in `select`, or a failed type assertion panics and the
panic leaves `DoProxy` once the deferred calls have run. -/
inductive Outcome where
  | returned (err : Option Error)
  | blocked
  | panicked
deriving DecidableEq, Repr

/-- An execution of `DoProxy`: how it ended, the tracker, the backend handle (when
`ConnBackend` gave one) and the two channels afterwards, the calls made, and the frame
at the moment the two relay tasks had been started (`none` when they never were). -/
structure Result where
  outcome : Outcome
  p : Proxyer
  server : Option Server
  inChan : Chan
  outChan : Chan
  trace : List Event
  relayStart : Option Frame
deriving DecidableEq, Repr

/-! ## The relay orchestrator -/

/-- Run the deferred calls at function exit; the head of the list is the call that
was deferred last, so it runs first. -/
def runDeferred : List Deferred → Frame → Frame
  | [], f => f
  | Deferred.ssConnClose :: ds, f =>
    runDeferred ds { f with trace := f.trace ++ [Event.ssConnClose] }
  | Deferred.popConnPair connId :: ds, f =>
    runDeferred ds { f with p := (popConnPair f.p connId).p,
                            trace := f.trace ++ [Event.popConnPair connId] }
  | Deferred.DecreseConnCount :: ds, f =>
    runDeferred ds { f with server := f.server.DecreseConnCount,
                            trace := f.trace ++ [Event.DecreseConnCount] }

/-- The case `inBytes := <-inChan` of the `select`. -/
def recvIn (inBytes : Int) (rest : Chan) (f : Frame) : Frame :=
  { f with inChan := rest, server := f.server.AddInBytes inBytes,
           trace := f.trace ++ [Event.AddInBytes inBytes] }

/-- The case `outBytes := <-outChan` of the `select`. -/
def recvOut (outBytes : Int) (rest : Chan) (f : Frame) : Frame :=
  { f with outChan := rest, server := f.server.AddOutBytes outBytes,
           trace := f.trace ++ [Event.AddOutBytes outBytes] }

/-- One `select` over the two channels: with no value on either it blocks (`none`),
with a value on one only it takes that one, with a value on both the scheduler picks. -/
def selectRecv (pickIn : Bool) (f : Frame) : Option Frame :=
  match f.inChan, f.outChan with
  | [], [] => none
  | inBytes :: rest, [] => some (recvIn inBytes rest f)
  | [], outBytes :: rest => some (recvOut outBytes rest f)
  | inBytes :: inRest, outBytes :: outRest =>
    if pickIn then some (recvIn inBytes inRest f) else some (recvOut outBytes outRest f)

/-- The loop `for i := 0; i < 2; i++ { select ... }`, with `n` iterations left from
iteration `i`; the flag tells whether the loop ran to its end, and is false when a
`select` blocked. -/
def recvLoop (pickIn : Nat → Bool) : Nat → Nat → Frame → Frame × Bool
  | 0, _, f => (f, true)
  | n + 1, i, f =>
    match selectRecv (pickIn i) f with
    | none => (f, false)
    | some f1 => recvLoop pickIn n (i + 1) f1

/-- Method `DoProxy`. -/
def DoProxy (env : Env) (p : Proxyer) (tgt : Target) (conn : Conn) : Result :=
  let targetAddr := tgt.Addr
  match env.ConnBackend with
  | Except.error err =>
    { outcome := Outcome.returned (some err), p := p, server := none,
      inChan := [], outChan := [], trace := [Event.ConnBackend], relayStart := none }
  | Except.ok (ssConn, server) =>
    let defers := [Deferred.ssConnClose]
    let latency := env.latency
    -- conn.(*net.TCPConn), in the first field of the ConnTrack literal
    if conn.isTCPConn then
      let connTrack : ConnTrack :=
        { LocalLocalAddr := conn.LocalAddr
          LocalRemoteAddr := conn.RemoteAddr
          RemoteLocalAddr := ssConn.LocalAddr
          RemoteRemoteAddr := ssConn.RemoteAddr
          Target := targetAddr
          Latency := latency }
      let pushed := pushConnPair p connTrack
      let connId := pushed.val
      let defers := Deferred.popConnPair connId :: defers
      let server := server.IncreseConnCount
      let defers := Deferred.DecreseConnCount :: defers
      let timeout := p.cfg.Timeout
      let inChan : Chan := []
      let outChan : Chan := []
      let trace := [Event.ConnBackend, Event.pushConnPair connId, Event.IncreseConnCount]
      let trace :=
        match tgt.request with
        | some bytes => trace ++ [Event.requestWrite bytes]
        | none => trace
      let inChan := CopyNetIO env.inCopied inChan
      let trace := trace ++ [Event.goCopyNetIO Direction.clientToShadowsocks timeout]
      let outChan := CopyNetIO env.outCopied outChan
      let trace := trace ++ [Event.goCopyNetIO Direction.shadowsocksToClient timeout]
      let start : Frame :=
        { p := pushed.p, server := server, inChan := inChan, outChan := outChan, trace := trace }
      let looped := recvLoop env.pickIn 2 0 start
      if looped.2 then
        let f := runDeferred defers looped.1
        { outcome := Outcome.returned none, p := f.p, server := some f.server,
          inChan := f.inChan, outChan := f.outChan, trace := f.trace,
          relayStart := some start }
      else
        { outcome := Outcome.blocked, p := looped.1.p, server := some looped.1.server,
          inChan := looped.1.inChan, outChan := looped.1.outChan, trace := looped.1.trace,
          relayStart := some start }
    else
      let f := runDeferred defers
        { p := p, server := server, inChan := [], outChan := [], trace := [Event.ConnBackend] }
      { outcome := Outcome.panicked, p := f.p, server := some f.server,
        inChan := f.inChan, outChan := f.outChan, trace := f.trace, relayStart := none }

/-- The calls of `DoProxy` up to the start of the relay tasks. -/
def setupTrace (p : Proxyer) (tgt : Target) : List Event :=
  [Event.ConnBackend, Event.pushConnPair p.ConnTotal, Event.IncreseConnCount]
    ++ (match tgt.request with
        | some bytes => [Event.requestWrite bytes]
        | none => [])
    ++ [Event.goCopyNetIO Direction.clientToShadowsocks p.cfg.Timeout,
        Event.goCopyNetIO Direction.shadowsocksToClient p.cfg.Timeout]

/-! ## Inputs used by the closed statements -/

/-- A configuration with a relay timeout of 30. -/
def cfg0 : Config := { Timeout := 30 }

/-- A connection record. -/
def rec0 : ConnTrack :=
  { LocalLocalAddr := "a", LocalRemoteAddr := "b", RemoteLocalAddr := "c",
    RemoteRemoteAddr := "d", Target := "example.com:80", Latency := 50 }

/-- A second connection record. -/
def rec1 : ConnTrack :=
  { LocalLocalAddr := "e", LocalRemoteAddr := "f", RemoteLocalAddr := "g",
    RemoteRemoteAddr := "h", Target := "example.org:443", Latency := 7 }

/-- The client connection of the scenarios, a `*net.TCPConn`. -/
def conn0 : Conn := { LocalAddr := "a", RemoteAddr := "b", isTCPConn := true }

/-- A client connection that is no `*net.TCPConn`: one end of `net.Pipe()`. -/
def pipeConn : Conn := { LocalAddr := "pipe", RemoteAddr := "pipe", isTCPConn := false }

/-- The backend stream of the scenarios. -/
def ssConn0 : Conn := { LocalAddr := "c", RemoteAddr := "d", isTCPConn := true }

/-- A backend handle with all counters at zero. -/
def server0 : Server := { ConnCount := 0, InBytes := 0, OutBytes := 0 }

/-- Target `example.com:80` without pre-read request bytes. -/
def tgt0 : Target := { Addr := "example.com:80", request := none }

/-- Target `example.com:80` with three pre-read request bytes. -/
def tgt1 : Target := { Addr := "example.com:80", request := some [71, 69, 84] }

/-- The backend connects after 50 ms, the client sends 10 bytes and the backend 20;
the flag is the answer of the scheduler at every iteration. -/
def envOk (inFirst : Bool) : Env :=
  { ConnBackend := Except.ok (ssConn0, server0), latency := 50, requestWrite := none,
    inCopied := 10, outCopied := 20, pickIn := fun _ => inFirst }

/-- The backend connect fails. -/
def envFail : Env :=
  { ConnBackend := Except.error { msg := "no backend" }, latency := 0, requestWrite := none,
    inCopied := 0, outCopied := 0, pickIn := fun _ => true }

/-- A tracker without entries whose counter stands at the largest `int`. -/
def pMax : Proxyer := { cfg := cfg0, ConnTracks := [], ConnTotal := maxInt }

/-- A push followed by the pop of the id it returns, `n` times over, when the counter
stands at `wrapInt c` at the start. -/
def churn (r : ConnTrack) : Int → Nat → List Call
  | _, 0 => []
  | c, n + 1 => Call.push r :: Call.pop (wrapInt c) :: churn r (c + 1) n

/-- A push whose entry stays, then `2 ^ 64 - 1` pushes each followed by the pop of
its id: the counter has gone once around and stands at 0 again. -/
@[irreducible]
def wrapCalls : List Call := Call.push rec0 :: churn rec1 1 (2 ^ 64 - 1)

/-- As many pushes, each followed by the pop of its id, as bring the counter of a
fresh tracker to the largest `int`. -/
@[irreducible]
def maxCalls : List Call := churn rec0 0 (2 ^ 63 - 1)

/-! ## Invariant of the reachable states -/

/-- The tracker that a sequence of calls leaves, started on `NewProxyer(config)`. -/
def reached (config : Config) (cs : List Call) : Proxyer := (exec (NewProxyer config) cs).1

/-- What the calls of a sequence did, started on `NewProxyer(config)`. -/
def logOf (config : Config) (cs : List Call) : List Done := (exec (NewProxyer config) cs).2

/-- Every key of the map is the wrapped value of a counter value already used. -/
def keysBelow (a : Nat) (p : Proxyer) : Prop :=
  ∀ k ∈ ConnMap.keys p.ConnTracks, ∃ j : Nat, j < a ∧ k = wrapInt j

/-! ## Arithmetic of `wrapInt` and association-list facts -/

theorem wrapInt_of_inRange (x : Int) (h1 : minInt ≤ x) (h2 : x ≤ maxInt) : wrapInt x = x := by
  simp only [wrapInt, minInt, maxInt, intBits] at *
  norm_num at *
  omega

theorem wrapInt_succ (x : Int) : wrapInt (wrapInt x + 1) = wrapInt (x + 1) := by
  simp only [wrapInt, intBits]
  norm_num
  omega

theorem lookup_nil (k : Int) : ConnMap.lookup [] k = none := rfl

theorem lookup_cons (a : Int) (v : ConnTrack) (m : ConnMap) (k : Int) :
    ConnMap.lookup ((a, v) :: m) k = if a = k then some v else ConnMap.lookup m k := by
  by_cases h : a = k
  · simp [ConnMap.lookup, List.find?_cons, h]
  · simp [ConnMap.lookup, List.find?_cons, h]

theorem delete_nil (k : Int) : ConnMap.delete [] k = [] := rfl

theorem delete_cons (a : Int) (v : ConnTrack) (m : ConnMap) (k : Int) :
    ConnMap.delete ((a, v) :: m) k
      = if a = k then ConnMap.delete m k else (a, v) :: ConnMap.delete m k := by
  by_cases h : a = k
  · simp [ConnMap.delete, List.filter_cons, h]
  · simp [ConnMap.delete, List.filter_cons, h]

theorem lookup_delete_self (m : ConnMap) (k : Int) :
    ConnMap.lookup (ConnMap.delete m k) k = none := by
  induction m with
  | nil => rfl
  | cons e m ih =>
    obtain ⟨a, v⟩ := e
    rw [delete_cons]
    by_cases h : a = k
    · rw [if_pos h]; exact ih
    · rw [if_neg h, lookup_cons, if_neg h]; exact ih

theorem lookup_delete_ne (m : ConnMap) (k k2 : Int) (hne : k2 ≠ k) :
    ConnMap.lookup (ConnMap.delete m k) k2 = ConnMap.lookup m k2 := by
  induction m with
  | nil => rfl
  | cons e m ih =>
    obtain ⟨a, v⟩ := e
    rw [delete_cons]
    by_cases h : a = k
    · have h2 : ¬ a = k2 := fun h3 => hne (h3.symm.trans h)
      rw [if_pos h, lookup_cons, if_neg h2]; exact ih
    · rw [if_neg h, lookup_cons, lookup_cons, ih]

theorem lookup_assign_self (m : ConnMap) (k : Int) (v : ConnTrack) :
    ConnMap.lookup (ConnMap.assign m k v) k = some v := by
  rw [ConnMap.assign, lookup_cons, if_pos rfl]

theorem lookup_assign_ne (m : ConnMap) (k k2 : Int) (v : ConnTrack) (hne : k2 ≠ k) :
    ConnMap.lookup (ConnMap.assign m k v) k2 = ConnMap.lookup m k2 := by
  have h2 : ¬ k = k2 := fun h3 => hne h3.symm
  rw [ConnMap.assign, lookup_cons, if_neg h2, lookup_delete_ne m k k2 hne]

theorem lookup_eq_none_iff (m : ConnMap) (k : Int) :
    ConnMap.lookup m k = none ↔ k ∉ ConnMap.keys m := by
  induction m with
  | nil => simp [ConnMap.lookup, ConnMap.keys]
  | cons e m ih =>
    by_cases h : e.1 = k
    · simp [ConnMap.lookup, ConnMap.keys, List.find?_cons, h]
    · have h2 : ¬ k = e.1 := fun h3 => h h3.symm
      simpa [ConnMap.lookup, ConnMap.keys, List.find?_cons, h, h2] using ih

theorem delete_of_not_mem (m : ConnMap) (k : Int) (h : k ∉ ConnMap.keys m) :
    ConnMap.delete m k = m := by
  induction m with
  | nil => rfl
  | cons e m ih =>
    simp only [ConnMap.keys, List.map_cons, List.mem_cons, not_or] at h
    have h1 : ¬ e.1 = k := fun h3 => h.1 h3.symm
    have h2 := ih (by simpa [ConnMap.keys] using h.2)
    simp only [ConnMap.delete] at h2
    simp [ConnMap.delete, List.filter_cons, h1, h2]

theorem delete_delete (m : ConnMap) (k : Int) :
    ConnMap.delete (ConnMap.delete m k) k = ConnMap.delete m k := by
  simp [ConnMap.delete, List.filter_filter]

theorem keys_delete (m : ConnMap) (k : Int) :
    ConnMap.keys (ConnMap.delete m k) = (ConnMap.keys m).filter (fun j => j != k) := by
  induction m with
  | nil => rfl
  | cons e m ih =>
    simp only [ConnMap.keys, ConnMap.delete] at ih
    by_cases h : e.1 = k
    · simp [ConnMap.keys, ConnMap.delete, List.filter_cons, h, ih]
    · simp [ConnMap.keys, ConnMap.delete, List.filter_cons, h, ih]

theorem mem_keys_delete (m : ConnMap) (k j : Int) :
    j ∈ ConnMap.keys (ConnMap.delete m k) ↔ j ∈ ConnMap.keys m ∧ j ≠ k := by
  simp [keys_delete, List.mem_filter]

theorem nodup_keys_delete (m : ConnMap) (k : Int) (h : (ConnMap.keys m).Nodup) :
    (ConnMap.keys (ConnMap.delete m k)).Nodup := by
  rw [keys_delete]
  exact h.filter _

theorem keys_assign (m : ConnMap) (k : Int) (v : ConnTrack) :
    ConnMap.keys (ConnMap.assign m k v) = k :: ConnMap.keys (ConnMap.delete m k) := by
  simp [ConnMap.assign, ConnMap.keys]

theorem nodup_keys_assign (m : ConnMap) (k : Int) (v : ConnTrack) (h : (ConnMap.keys m).Nodup) :
    (ConnMap.keys (ConnMap.assign m k v)).Nodup := by
  rw [keys_assign, List.nodup_cons]
  exact ⟨by simp [mem_keys_delete], nodup_keys_delete m k h⟩

theorem len_eq_keys_length (m : ConnMap) : ConnMap.len m = (ConnMap.keys m).length := by
  simp [ConnMap.len, ConnMap.keys]

/-! ## The tracker operations, one call at a time -/

/-- C1, as stated, fails where the counter stands at the largest `int`: `p.ConnTotal++`
wraps to the smallest `int`, so the counter is not `s.ConnTotal + 1` afterwards. -/
theorem pushConnPair_wraps_at_maxInt :
    (pushConnPair pMax rec0).val = pMax.ConnTotal ∧
    (pushConnPair pMax rec0).p.ConnTotal = minInt ∧
    (pushConnPair pMax rec0).p.ConnTotal ≠ pMax.ConnTotal + 1 := by
  simp only [pushConnPair, pMax, wrapInt, maxInt, minInt, intBits]
  norm_num

/-- C1 (amended): for every tracker state `s` whose counter is an `int` below the
largest one and every record `r`, `pushConnPair` returns `s.ConnTotal`, leaves the
counter at `s.ConnTotal + 1`, maps `s.ConnTotal` to `r` and leaves every other key of
`ConnTracks` mapped as it was. -/
theorem pushConnPair_spec (s : Proxyer) (r : ConnTrack)
    (hlo : minInt ≤ s.ConnTotal) (hhi : s.ConnTotal < maxInt) :
    (pushConnPair s r).val = s.ConnTotal ∧
    (pushConnPair s r).p.ConnTotal = s.ConnTotal + 1 ∧
    ConnMap.lookup (pushConnPair s r).p.ConnTracks s.ConnTotal = some r ∧
    (∀ k, k ≠ s.ConnTotal →
      ConnMap.lookup (pushConnPair s r).p.ConnTracks k = ConnMap.lookup s.ConnTracks k) ∧
    (pushConnPair s r).p.cfg = s.cfg := by
  refine ⟨rfl, ?_, ?_, ?_, rfl⟩
  · show wrapInt (s.ConnTotal + 1) = s.ConnTotal + 1
    apply wrapInt_of_inRange
    · simp only [minInt, intBits] at *; omega
    · omega
  · exact lookup_assign_self _ _ _
  · intro k hk
    exact lookup_assign_ne _ _ _ _ hk

/-- The amended C1 at a fresh tracker: the first push returns id 0. -/
theorem pushConnPair_spec_witness :
    (pushConnPair (NewProxyer cfg0) rec0).val = (NewProxyer cfg0).ConnTotal ∧
    (pushConnPair (NewProxyer cfg0) rec0).p.ConnTotal = (NewProxyer cfg0).ConnTotal + 1 ∧
    ConnMap.lookup (pushConnPair (NewProxyer cfg0) rec0).p.ConnTracks
      (NewProxyer cfg0).ConnTotal = some rec0 ∧
    (∀ k, k ≠ (NewProxyer cfg0).ConnTotal →
      ConnMap.lookup (pushConnPair (NewProxyer cfg0) rec0).p.ConnTracks k
        = ConnMap.lookup (NewProxyer cfg0).ConnTracks k) ∧
    (pushConnPair (NewProxyer cfg0) rec0).p.cfg = (NewProxyer cfg0).cfg :=
  pushConnPair_spec (NewProxyer cfg0) rec0
    (by simp [NewProxyer, minInt, intBits]) (by simp [NewProxyer, maxInt, intBits])

/-- C2: `popConnPair` is a total function of the state (it has no failing outcome);
on an id that is not a key it returns the state it was given; a second call with the
same id changes nothing after the first; and in every case the id is absent
afterwards, every other key is mapped as before, and `ConnTotal` and the
configuration are untouched. -/
theorem popConnPair_spec (s : Proxyer) (connId : Int) :
    (ConnMap.lookup s.ConnTracks connId = none → (popConnPair s connId).p = s) ∧
    (popConnPair (popConnPair s connId).p connId).p = (popConnPair s connId).p ∧
    ConnMap.lookup (popConnPair s connId).p.ConnTracks connId = none ∧
    (∀ k, k ≠ connId →
      ConnMap.lookup (popConnPair s connId).p.ConnTracks k = ConnMap.lookup s.ConnTracks k) ∧
    (popConnPair s connId).p.ConnTotal = s.ConnTotal ∧
    (popConnPair s connId).p.cfg = s.cfg := by
  refine ⟨?_, ?_, ?_, ?_, rfl, rfl⟩
  · intro h
    have hk := (lookup_eq_none_iff _ _).1 h
    show ({ s with ConnTracks := ConnMap.delete s.ConnTracks connId } : Proxyer) = s
    rw [delete_of_not_mem _ _ hk]
  · show ({ s with ConnTracks := ConnMap.delete (ConnMap.delete s.ConnTracks connId) connId }
        : Proxyer) = { s with ConnTracks := ConnMap.delete s.ConnTracks connId }
    rw [delete_delete]
  · exact lookup_delete_self _ _
  · intro k hk
    exact lookup_delete_ne _ _ _ hk

/-- C2 on a tracker holding ids 0 and 1: popping the never-issued id 7 changes nothing,
popping id 0 removes that entry alone, and popping it again changes nothing more. -/
theorem popConnPair_spec_witness :
    (popConnPair (exec (NewProxyer cfg0) [Call.push rec0, Call.push rec1]).1 7).p
      = (exec (NewProxyer cfg0) [Call.push rec0, Call.push rec1]).1 ∧
    (exec (NewProxyer cfg0) [Call.push rec0, Call.push rec1, Call.pop 0]).1.ConnTracks
      = [(1, rec1)] ∧
    (exec (NewProxyer cfg0) [Call.push rec0, Call.push rec1, Call.pop 0, Call.pop 0]).1
      = (exec (NewProxyer cfg0) [Call.push rec0, Call.push rec1, Call.pop 0]).1 := by
  refine ⟨(popConnPair_spec _ 7).1 (by decide), by decide, by decide⟩

/-- C9: `pushConnPair` and `popConnPair` touch the shared fields only between `Lock`
and `Unlock`, on every state and argument, whereas `ConnCount` reads `len` of the map
with the mutex not taken at all. -/
theorem ConnCount_reads_without_lock (p : Proxyer) (r : ConnTrack) (connId : Int) :
    lockedAccesses false (pushConnPair p r).acts = true ∧
    lockedAccesses false (popConnPair p connId).acts = true ∧
    lockedAccesses false (ConnCount p).acts = false ∧
    Act.Lock ∉ (ConnCount p).acts ∧
    (ConnCount p).val = ConnMap.len p.ConnTracks := by
  refine ⟨rfl, rfl, rfl, ?_, rfl⟩
  simp [ConnCount]

/-! ## Sequences of calls: the counter and the ids -/

theorem exec_nil (p : Proxyer) : exec p [] = (p, []) := rfl

theorem exec_push (p : Proxyer) (r : ConnTrack) (cs : List Call) :
    exec p (Call.push r :: cs)
      = ((exec (pushConnPair p r).p cs).1,
         Done.pushed p.ConnTotal :: (exec (pushConnPair p r).p cs).2) := rfl

theorem exec_pop (p : Proxyer) (k : Int) (cs : List Call) :
    exec p (Call.pop k :: cs)
      = ((exec (popConnPair p k).p cs).1,
         Done.popped k :: (exec (popConnPair p k).p cs).2) := rfl

theorem exec_append (p : Proxyer) (cs ds : List Call) :
    exec p (cs ++ ds)
      = ((exec (exec p cs).1 ds).1, (exec p cs).2 ++ (exec (exec p cs).1 ds).2) := by
  induction cs generalizing p with
  | nil => simp [exec_nil]
  | cons c cs ih =>
    cases c with
    | push r => simp [exec_push, ih]
    | pop k => simp [exec_pop, ih]

theorem numPush_append (cs ds : List Call) : numPush (cs ++ ds) = numPush cs + numPush ds := by
  induction cs with
  | nil => simp [numPush]
  | cons c cs ih =>
    cases c with
    | push r => simp [numPush, ih]; omega
    | pop k => simp [numPush, ih]

theorem pushedIds_append (l1 l2 : List Done) :
    pushedIds (l1 ++ l2) = pushedIds l1 ++ pushedIds l2 := by
  induction l1 with
  | nil => rfl
  | cons d l ih => cases d <;> simp [pushedIds, ih]

theorem poppedIds_append (l1 l2 : List Done) :
    poppedIds (l1 ++ l2) = poppedIds l1 ++ poppedIds l2 := by
  induction l1 with
  | nil => rfl
  | cons d l ih => cases d <;> simp [poppedIds, ih]

/-- The counter after a sequence of calls is the wrapped number of pushes added. -/
theorem exec_ConnTotal (cs : List Call) (p : Proxyer) (c : Int) (h : p.ConnTotal = wrapInt c) :
    (exec p cs).1.ConnTotal = wrapInt (c + numPush cs) := by
  induction cs generalizing p c with
  | nil => simpa [exec_nil, numPush] using h
  | cons d cs ih =>
    cases d with
    | push r =>
      rw [exec_push]
      have h1 : (pushConnPair p r).p.ConnTotal = wrapInt (c + 1) := by
        show wrapInt (p.ConnTotal + 1) = wrapInt (c + 1)
        rw [h, wrapInt_succ]
      have h2 := ih (pushConnPair p r).p (c + 1) h1
      simp only [numPush]
      rw [h2]
      congr 1
      push_cast
      ring
    | pop k =>
      rw [exec_pop]
      exact ih (popConnPair p k).p c h

/-- The ids the pushes of a sequence return are the wrapped successive counter values. -/
theorem exec_pushedIds (cs : List Call) (p : Proxyer) (c : Int) (h : p.ConnTotal = wrapInt c) :
    pushedIds (exec p cs).2 = (List.range (numPush cs)).map (fun j : Nat => wrapInt (c + j)) := by
  induction cs generalizing p c with
  | nil => simp [exec_nil, numPush, pushedIds]
  | cons d cs ih =>
    cases d with
    | push r =>
      rw [exec_push]
      have h1 : (pushConnPair p r).p.ConnTotal = wrapInt (c + 1) := by
        show wrapInt (p.ConnTotal + 1) = wrapInt (c + 1)
        rw [h, wrapInt_succ]
      have h2 := ih (pushConnPair p r).p (c + 1) h1
      simp only [numPush, pushedIds]
      rw [h2, List.range_succ_eq_map, List.map_cons, List.map_map, h]
      simp only [Nat.cast_zero, add_zero, List.cons.injEq, true_and]
      apply List.map_congr_left
      intro j _
      simp only [Function.comp, Nat.succ_eq_add_one]
      congr 1
      push_cast
      ring
    | pop k =>
      rw [exec_pop]
      exact ih (popConnPair p k).p c h

theorem exec_keysBelow (cs : List Call) (p : Proxyer) (a : Nat)
    (h : p.ConnTotal = wrapInt a) (hk : keysBelow a p) :
    keysBelow (a + numPush cs) (exec p cs).1 := by
  induction cs generalizing p a with
  | nil => simpa [exec_nil, numPush] using hk
  | cons d cs ih =>
    cases d with
    | push r =>
      rw [exec_push]
      have h1 : (pushConnPair p r).p.ConnTotal = wrapInt ((a + 1 : Nat) : Int) := by
        show wrapInt (p.ConnTotal + 1) = wrapInt ((a + 1 : Nat) : Int)
        rw [h, wrapInt_succ]
        push_cast
        rfl
      have hk1 : keysBelow (a + 1) (pushConnPair p r).p := by
        intro k hmem
        have hmem2 : k ∈ ConnMap.keys (ConnMap.assign p.ConnTracks p.ConnTotal r) := hmem
        rw [keys_assign, List.mem_cons, mem_keys_delete] at hmem2
        rcases hmem2 with hk0 | ⟨hk2, _⟩
        · exact ⟨a, by omega, by rw [hk0, h]⟩
        · obtain ⟨j, hj, hje⟩ := hk k hk2
          exact ⟨j, by omega, hje⟩
      have h2 := ih (pushConnPair p r).p (a + 1) h1 hk1
      simp only [numPush]
      have e : a + (numPush cs + 1) = a + 1 + numPush cs := by omega
      rw [e]
      exact h2
    | pop k =>
      rw [exec_pop]
      have hk1 : keysBelow a (popConnPair p k).p := by
        intro j hmem
        have hmem2 : j ∈ ConnMap.keys (ConnMap.delete p.ConnTracks k) := hmem
        rw [mem_keys_delete] at hmem2
        exact hk j hmem2.1
      exact ih (popConnPair p k).p a h hk1

theorem exec_nodup_keys (cs : List Call) (p : Proxyer)
    (h : (ConnMap.keys p.ConnTracks).Nodup) :
    (ConnMap.keys (exec p cs).1.ConnTracks).Nodup := by
  induction cs generalizing p with
  | nil => simpa [exec_nil] using h
  | cons d cs ih =>
    cases d with
    | push r =>
      rw [exec_push]
      exact ih _ (nodup_keys_assign _ _ _ h)
    | pop k =>
      rw [exec_pop]
      exact ih _ (nodup_keys_delete _ _ h)

/-- Wrapping tells apart any two naturals that are less than `2 ^ 64` apart. -/
theorem wrapInt_inj_of_lt (i j : Nat) (hi : i < 2 ^ 64) (hj : j < 2 ^ 64)
    (h : wrapInt i = wrapInt j) : i = j := by
  simp only [wrapInt, intBits] at h
  norm_num at h hi hj
  omega

/-- While fewer than `2 ^ 64` ids have been issued, the next id is not a key. -/
theorem next_id_fresh (p : Proxyer) (a : Nat) (h : p.ConnTotal = wrapInt a)
    (hk : keysBelow a p) (ha : a < 2 ^ 64) :
    p.ConnTotal ∉ ConnMap.keys p.ConnTracks := by
  intro hmem
  obtain ⟨j, hj, hje⟩ := hk _ hmem
  rw [h] at hje
  have := wrapInt_inj_of_lt a j ha (by omega) hje
  omega

/-! ## Sequences of calls: the live entries -/

theorem liveIds_sublist (l : List Done) : (liveIds l).Sublist (pushedIds l) := by
  induction l with
  | nil => exact List.Sublist.refl _
  | cons d l ih =>
    cases d with
    | pushed k =>
      simp only [liveIds, pushedIds]
      split
      · exact ih.cons _
      · exact ih.cons₂ _
    | popped k => simpa [liveIds, pushedIds] using ih

theorem mem_liveIds_of_pushed (l : List Done) (k : Int)
    (h1 : k ∈ pushedIds l) (h2 : k ∉ poppedIds l) : k ∈ liveIds l := by
  induction l with
  | nil => simp [pushedIds] at h1
  | cons d l ih =>
    cases d with
    | pushed j =>
      simp only [pushedIds, List.mem_cons] at h1
      simp only [poppedIds] at h2
      simp only [liveIds]
      by_cases hj : j ∈ poppedIds l
      · rw [if_pos hj]
        rcases h1 with h1 | h1
        · exact absurd (h1 ▸ hj) h2
        · exact ih h1 h2
      · rw [if_neg hj, List.mem_cons]
        rcases h1 with h1 | h1
        · exact Or.inl h1
        · exact Or.inr (ih h1 h2)
    | popped j =>
      simp only [pushedIds] at h1
      simp only [poppedIds, List.mem_cons, not_or] at h2
      simp only [liveIds]
      exact ih h1 h2.2

/-- The keys after a sequence of calls: the ids pushed and not popped later, and the
keys of the start that no call of the sequence named. -/
theorem mem_keys_exec (cs : List Call) (p : Proxyer) (k : Int) :
    k ∈ ConnMap.keys (exec p cs).1.ConnTracks ↔
      (k ∈ liveIds (exec p cs).2 ∨
        (k ∈ ConnMap.keys p.ConnTracks ∧ k ∉ pushedIds (exec p cs).2 ∧
          k ∉ poppedIds (exec p cs).2)) := by
  induction cs generalizing p with
  | nil => simp [exec_nil, liveIds, pushedIds, poppedIds]
  | cons d cs ih =>
    cases d with
    | push r =>
      rw [exec_push]
      have hkeys : ∀ j, j ∈ ConnMap.keys (pushConnPair p r).p.ConnTracks ↔
          (j = p.ConnTotal ∨ j ∈ ConnMap.keys p.ConnTracks) := by
        intro j
        show j ∈ ConnMap.keys (ConnMap.assign p.ConnTracks p.ConnTotal r) ↔ _
        rw [keys_assign, List.mem_cons, mem_keys_delete]
        by_cases hj : j = p.ConnTotal <;> simp [hj]
      simp only [ih, hkeys, liveIds, pushedIds, poppedIds, List.mem_cons, not_or]
      by_cases hk : k = p.ConnTotal
      · subst hk
        by_cases hp : p.ConnTotal ∈ poppedIds (exec (pushConnPair p r).p cs).2
        · simp [hp]
        · simp only [hp, if_false, List.mem_cons, true_or, not_true_eq_false, false_and,
            and_false, or_false, not_false_eq_true, and_true, iff_true]
          by_cases hq : p.ConnTotal ∈ pushedIds (exec (pushConnPair p r).p cs).2
          · exact Or.inl (mem_liveIds_of_pushed _ _ hq hp)
          · exact Or.inr ⟨trivial, hq⟩
      · by_cases hp : p.ConnTotal ∈ poppedIds (exec (pushConnPair p r).p cs).2
        · simp [hp, hk]
        · simp [hp, hk]
    | pop j =>
      rw [exec_pop]
      have hkeys : ∀ i, i ∈ ConnMap.keys (popConnPair p j).p.ConnTracks ↔
          (i ∈ ConnMap.keys p.ConnTracks ∧ i ≠ j) := by
        intro i
        show i ∈ ConnMap.keys (ConnMap.delete p.ConnTracks j) ↔ _
        rw [mem_keys_delete]
      simp only [ih, hkeys, liveIds, pushedIds, poppedIds, List.mem_cons, not_or]
      tauto

/-- Ids issued from a fresh tracker are pairwise distinct up to `2 ^ 64` pushes. -/
theorem nodup_pushedIds (cfg : Config) (cs : List Call) (h : numPush cs ≤ 2 ^ 64) :
    (pushedIds (exec (NewProxyer cfg) cs).2).Nodup := by
  rw [exec_pushedIds cs (NewProxyer cfg) 0 (by simp [NewProxyer, wrapInt, intBits])]
  apply List.Nodup.map_on _ (List.nodup_range _)
  intro i hi j hj hij
  rw [List.mem_range] at hi hj
  simp only [zero_add] at hij
  exact wrapInt_inj_of_lt i j (by omega) (by omega) hij

/-- From a fresh tracker, and up to `2 ^ 64` pushes, `ConnCount` is the number of ids
pushed and not popped later. -/
theorem ConnCount_eq_live (cfg : Config) (cs : List Call) (h : numPush cs ≤ 2 ^ 64) :
    (ConnCount (exec (NewProxyer cfg) cs).1).val = (liveIds (exec (NewProxyer cfg) cs).2).length := by
  show ConnMap.len _ = _
  rw [len_eq_keys_length]
  apply List.Perm.length_eq
  rw [List.perm_ext_iff_of_nodup]
  · intro k
    rw [mem_keys_exec]
    simp [NewProxyer, ConnMap.keys]
  · exact exec_nodup_keys cs _ (by simp [NewProxyer, ConnMap.keys])
  · exact (nodup_pushedIds cfg cs h).sublist (liveIds_sublist _)

/-- A push at a state whose next id is not a key adds one entry. -/
theorem len_push_fresh (p : Proxyer) (r : ConnTrack)
    (h : p.ConnTotal ∉ ConnMap.keys p.ConnTracks) :
    (ConnCount (pushConnPair p r).p).val = (ConnCount p).val + 1 := by
  show ConnMap.len (ConnMap.assign p.ConnTracks p.ConnTotal r) = ConnMap.len p.ConnTracks + 1
  rw [ConnMap.assign, delete_of_not_mem _ _ h]
  rfl

/-- The state reached from a fresh tracker: counter and keys. -/
theorem reach_inv (cfg : Config) (cs : List Call) :
    (reached cfg cs).ConnTotal = wrapInt (numPush cs) ∧
    keysBelow (numPush cs) (reached cfg cs) := by
  unfold reached
  have h0 : (NewProxyer cfg).ConnTotal = wrapInt ((0 : Nat) : Int) := by
    simp [NewProxyer, wrapInt, intBits]
  have hk0 : keysBelow 0 (NewProxyer cfg) := by
    intro k hk
    simp [NewProxyer, ConnMap.keys] at hk
  constructor
  · have := exec_ConnTotal cs (NewProxyer cfg) 0 (by simp [NewProxyer, wrapInt, intBits])
    simpa using this
  · have := exec_keysBelow cs (NewProxyer cfg) 0 h0 hk0
    simpa using this

/-! ## Pushes that are popped at once -/

theorem exec_churn_succ (r : ConnTrack) (n : Nat) (p : Proxyer) (c : Int) :
    exec p (churn r c (n + 1))
      = ((exec (popConnPair (pushConnPair p r).p (wrapInt c)).p (churn r (c + 1) n)).1,
         Done.pushed p.ConnTotal :: Done.popped (wrapInt c) ::
           (exec (popConnPair (pushConnPair p r).p (wrapInt c)).p (churn r (c + 1) n)).2) := rfl

theorem poppedIds_pushed_popped (k j : Int) (l : List Done) :
    poppedIds (Done.pushed k :: Done.popped j :: l) = j :: poppedIds l := rfl

theorem liveIds_pushed_popped (k : Int) (l : List Done) :
    liveIds (Done.pushed k :: Done.popped k :: l) = liveIds l := by
  simp [liveIds, poppedIds]

/-- A run of `churn` from a state none of whose keys it meets: the map is as before,
the counter has advanced by `n`, every id pushed was popped, none is live. -/
theorem exec_churn (r : ConnTrack) (n : Nat) (p : Proxyer) (c : Int)
    (h : p.ConnTotal = wrapInt c)
    (hf : ∀ j : Nat, j < n → wrapInt (c + j) ∉ ConnMap.keys p.ConnTracks) :
    (exec p (churn r c n)).1 = { p with ConnTotal := wrapInt (c + n) } ∧
    poppedIds (exec p (churn r c n)).2 = (List.range n).map (fun j : Nat => wrapInt (c + j)) ∧
    (∀ l, liveIds ((exec p (churn r c n)).2 ++ l) = liveIds l) := by
  induction n generalizing p c with
  | zero =>
    refine ⟨?_, ?_, ?_⟩
    · simp only [churn, exec_nil, Nat.cast_zero, add_zero, ← h]
    · simp [churn, exec_nil, poppedIds]
    · intro l
      simp [churn, exec_nil]
  | succ n ih =>
    have hfresh : p.ConnTotal ∉ ConnMap.keys p.ConnTracks := by
      have := hf 0 (by omega)
      simpa [h] using this
    have hstep : (popConnPair (pushConnPair p r).p (wrapInt c)).p
        = { p with ConnTotal := wrapInt (c + 1) } := by
      show ({ cfg := p.cfg,
              ConnTracks := ConnMap.delete (ConnMap.assign p.ConnTracks p.ConnTotal r) (wrapInt c),
              ConnTotal := wrapInt (p.ConnTotal + 1) } : Proxyer) = _
      rw [ConnMap.assign, ← h, delete_cons, if_pos rfl, delete_delete,
        delete_of_not_mem _ _ hfresh, h, wrapInt_succ]
    have hf2 : ∀ j : Nat, j < n →
        wrapInt (c + 1 + j) ∉ ConnMap.keys ({ p with ConnTotal := wrapInt (c + 1) } : Proxyer).ConnTracks := by
      intro j hj
      have := hf (j + 1) (by omega)
      have e : c + ((j + 1 : Nat) : Int) = c + 1 + j := by push_cast; ring
      rw [e] at this
      exact this
    obtain ⟨i1, i2, i3⟩ := ih { p with ConnTotal := wrapInt (c + 1) } (c + 1) rfl hf2
    have e2 : c + ((n + 1 : Nat) : Int) = c + 1 + n := by push_cast; ring
    rw [exec_churn_succ, hstep]
    refine ⟨?_, ?_, ?_⟩
    · show (exec _ _).1 = _
      rw [i1, e2]
    · show poppedIds (Done.pushed _ :: Done.popped _ :: (exec _ _).2) = _
      rw [poppedIds_pushed_popped, i2, List.range_succ_eq_map, List.map_cons, List.map_map]
      simp only [Nat.cast_zero, add_zero, List.cons.injEq, true_and]
      apply List.map_congr_left
      intro j _
      simp only [Function.comp, Nat.succ_eq_add_one]
      congr 1
      push_cast
      ring
    · intro l
      show liveIds ((Done.pushed _ :: Done.popped _ :: (exec _ _).2) ++ l) = _
      rw [List.cons_append, List.cons_append, h, liveIds_pushed_popped]
      exact i3 l

/-- A push, then `n` pushes each popped at once, when `n + 1` is `2 ^ 64`: the first
entry is still there and the counter is back at its id. -/
theorem exec_push_churn (cfg : Config) (r0 r1 : ConnTrack) (n : Nat)
    (hn : (n : Int) + 1 = 2 ^ 64) :
    (exec (NewProxyer cfg) (Call.push r0 :: churn r1 1 n)).1
      = { cfg := cfg, ConnTracks := [(0, r0)], ConnTotal := 0 } ∧
    (∀ l, liveIds ((exec (NewProxyer cfg) (Call.push r0 :: churn r1 1 n)).2 ++ l)
      = if (0 : Int) ∈ poppedIds l then liveIds l else 0 :: liveIds l) := by
  have hp1 : (pushConnPair (NewProxyer cfg) r0).p
      = { cfg := cfg, ConnTracks := [(0, r0)], ConnTotal := wrapInt 1 } := by
    simp [pushConnPair, NewProxyer, ConnMap.assign, ConnMap.delete]
  have hne : ∀ j : Nat, j < n → wrapInt (1 + j) ≠ 0 := by
    intro j hj
    simp only [wrapInt, intBits]
    norm_num at hn ⊢
    omega
  have hf : ∀ j : Nat, j < n → wrapInt (1 + j) ∉ ConnMap.keys
      ({ cfg := cfg, ConnTracks := [(0, r0)], ConnTotal := wrapInt 1 } : Proxyer).ConnTracks := by
    intro j hj
    simp only [ConnMap.keys, List.map_cons, List.map_nil, List.mem_singleton]
    exact hne j hj
  obtain ⟨i1, i2, i3⟩ := exec_churn r1 n
    { cfg := cfg, ConnTracks := [(0, r0)], ConnTotal := wrapInt 1 } 1 rfl hf
  have hz : wrapInt (1 + (n : Int)) = 0 := by
    simp only [wrapInt, intBits]
    norm_num at hn ⊢
    omega
  have hnp : (0 : Int) ∉ (List.range n).map (fun j : Nat => wrapInt (1 + j)) := by
    intro hm
    rw [List.mem_map] at hm
    obtain ⟨j, hj, hje⟩ := hm
    rw [List.mem_range] at hj
    exact hne j hj hje
  rw [exec_push, hp1]
  refine ⟨?_, ?_⟩
  · show (exec _ _).1 = _
    rw [i1, hz]
  · intro l
    show liveIds ((Done.pushed (NewProxyer cfg).ConnTotal :: (exec _ _).2) ++ l) = _
    have hpop : (0 : Int) ∈ poppedIds ((exec
        { cfg := cfg, ConnTracks := [(0, r0)], ConnTotal := wrapInt 1 } (churn r1 1 n)).2 ++ l)
          ↔ (0 : Int) ∈ poppedIds l := by
      rw [poppedIds_append, List.mem_append, i2]
      simp [hnp]
    rw [List.cons_append]
    show (if (0 : Int) ∈ poppedIds _ then liveIds _ else (0 : Int) :: liveIds _) = _
    rw [i3 l]
    by_cases h0 : (0 : Int) ∈ poppedIds l
    · rw [if_pos (hpop.2 h0), if_pos h0]
    · rw [if_neg (fun hx => h0 (hpop.1 hx)), if_neg h0]

theorem wrapCalls_eq : wrapCalls = Call.push rec0 :: churn rec1 1 (2 ^ 64 - 1) := by
  unfold wrapCalls
  exact Eq.refl _

theorem maxCalls_eq : maxCalls = churn rec0 0 (2 ^ 63 - 1) := by
  unfold maxCalls
  exact Eq.refl _

/-- The state `wrapCalls` leads to. -/
theorem exec_wrapCalls :
    (exec (NewProxyer cfg0) wrapCalls).1
      = { cfg := cfg0, ConnTracks := [(0, rec0)], ConnTotal := 0 } ∧
    (∀ l, liveIds ((exec (NewProxyer cfg0) wrapCalls).2 ++ l)
      = if (0 : Int) ∈ poppedIds l then liveIds l else 0 :: liveIds l) := by
  rw [wrapCalls_eq]
  exact exec_push_churn cfg0 rec0 rec1 (2 ^ 64 - 1) (by norm_num)

/-- As many pushes popped at once, from a fresh tracker, as the largest `int`. -/
theorem exec_churn_fresh (cfg : Config) (r : ConnTrack) (n : Nat) (hn : (n : Int) = maxInt) :
    (exec (NewProxyer cfg) (churn r 0 n)).1
      = { cfg := cfg, ConnTracks := [], ConnTotal := maxInt } := by
  have hf : ∀ j : Nat, j < n →
      wrapInt (0 + j) ∉ ConnMap.keys (NewProxyer cfg).ConnTracks := by
    intro j _
    simp [NewProxyer, ConnMap.keys]
  obtain ⟨i1, _, _⟩ := exec_churn r n (NewProxyer cfg) 0
    (by simp [NewProxyer, wrapInt, intBits]) hf
  rw [i1, zero_add, hn, wrapInt_of_inRange maxInt (by simp [minInt, maxInt, intBits]) (le_refl _)]
  rfl

/-- The state `maxCalls` leads to. -/
theorem exec_maxCalls : (exec (NewProxyer cfg0) maxCalls).1 = pMax := by
  rw [maxCalls_eq]
  exact exec_churn_fresh cfg0 rec0 (2 ^ 63 - 1) (by simp [maxInt, intBits])

/-! ## The claims on sequences of calls -/

theorem reached_append (cfg : Config) (cs ds : List Call) :
    reached cfg (cs ++ ds) = (exec (reached cfg cs) ds).1 := by
  simp only [reached, exec_append]

theorem logOf_append (cfg : Config) (cs ds : List Call) :
    logOf cfg (cs ++ ds) = logOf cfg cs ++ (exec (reached cfg cs) ds).2 := by
  simp only [reached, logOf, exec_append]

/-- C3, as stated, fails once the counter has gone around: after `wrapCalls` the entry
of id 0 is live and the counter is 0 again, so the next push returns id 0, overwrites
that entry and leaves `ConnCount` at 1, while two pushes of the sequence returned an id
not passed to `popConnPair` afterwards. -/
theorem ConnCount_overwrite_after_wrap :
    (reached cfg0 wrapCalls).ConnTracks = [(0, rec0)] ∧
    (pushConnPair (reached cfg0 wrapCalls) rec1).val = 0 ∧
    (ConnCount (reached cfg0 wrapCalls)).val = 1 ∧
    (reached cfg0 (wrapCalls ++ [Call.push rec1])).ConnTracks = [(0, rec1)] ∧
    (ConnCount (reached cfg0 (wrapCalls ++ [Call.push rec1]))).val = 1 ∧
    (liveIds (logOf cfg0 (wrapCalls ++ [Call.push rec1]))).length = 2 := by
  obtain ⟨h1, h2⟩ := exec_wrapCalls
  have hr : reached cfg0 wrapCalls
      = { cfg := cfg0, ConnTracks := [(0, rec0)], ConnTotal := 0 } := by
    rw [reached, h1]
  have hl : liveIds (logOf cfg0 wrapCalls ++ [Done.pushed 0]) = [0, 0] := by
    rw [logOf, h2 [Done.pushed 0]]
    decide
  have hstep : (exec ({ cfg := cfg0, ConnTracks := [(0, rec0)], ConnTotal := 0 } : Proxyer)
      [Call.push rec1]) = ({ cfg := cfg0, ConnTracks := [(0, rec1)], ConnTotal := 1 },
        [Done.pushed 0]) := by
    decide
  rw [reached_append, logOf_append, hr, hstep, hl]
  exact ⟨rfl, rfl, rfl, rfl, rfl, rfl⟩

/-- C3 (amended): for every sequence of calls with at most `2 ^ 64` pushes, run on a
fresh tracker, `ConnCount` afterwards is the number of ids returned by a push and not
passed to a pop later in the sequence; and every push of the sequence finds its id
absent from the map and raises `ConnCount` by exactly one. -/
theorem ConnCount_counts_live (cfg : Config) (cs : List Call)
    (h : numPush cs ≤ 2 ^ intBits) :
    (ConnCount (reached cfg cs)).val = (liveIds (logOf cfg cs)).length ∧
    (∀ pre r suf, cs = pre ++ Call.push r :: suf →
      ConnMap.lookup (reached cfg pre).ConnTracks (pushConnPair (reached cfg pre) r).val = none ∧
      (ConnCount (reached cfg (pre ++ [Call.push r]))).val
        = (ConnCount (reached cfg pre)).val + 1) := by
  have h64 : numPush cs ≤ 2 ^ 64 := h
  refine ⟨ConnCount_eq_live cfg cs h64, ?_⟩
  intro pre r suf hcs
  have hlt : numPush pre < 2 ^ 64 := by
    rw [hcs, numPush_append] at h64
    simp only [numPush] at h64
    omega
  obtain ⟨i1, i2⟩ := reach_inv cfg pre
  have hfresh := next_id_fresh (reached cfg pre) (numPush pre) i1 i2 hlt
  refine ⟨(lookup_eq_none_iff _ _).2 hfresh, ?_⟩
  rw [reached_append]
  exact len_push_fresh _ r hfresh

/-- The amended C3 on five calls: two of the three ids pushed are live at the end. -/
theorem ConnCount_counts_live_witness :
    (ConnCount (reached cfg0
      [Call.push rec0, Call.push rec1, Call.pop 0, Call.pop 5, Call.push rec0])).val = 2 ∧
    liveIds (logOf cfg0
      [Call.push rec0, Call.push rec1, Call.pop 0, Call.pop 5, Call.push rec0]) = [1, 2] := by
  have h := (ConnCount_counts_live cfg0
    [Call.push rec0, Call.push rec1, Call.pop 0, Call.pop 5, Call.push rec0] (by decide)).1
  have h2 : liveIds (logOf cfg0
      [Call.push rec0, Call.push rec1, Call.pop 0, Call.pop 5, Call.push rec0]) = [1, 2] := by
    decide
  rw [h2] at h
  exact ⟨h, h2⟩

/-- C4: for every sequence of calls whose number of pushes does not exceed the largest
`int`, run on a fresh tracker: the `k`-th push returns `k`, whatever pops lie between;
the ids returned are strictly increasing and pairwise distinct; after every prefix of
the sequence `ConnTotal` is the number of pushes made so far and is not above its
value at the end; and no id returned in a prefix is returned again afterwards. -/
theorem pushConnPair_ids (cfg : Config) (cs : List Call)
    (h : (numPush cs : Int) ≤ maxInt) :
    pushedIds (logOf cfg cs) = (List.range (numPush cs)).map (fun k : Nat => (k : Int)) ∧
    (pushedIds (logOf cfg cs)).Pairwise (fun a b => a < b) ∧
    (pushedIds (logOf cfg cs)).Nodup ∧
    (reached cfg cs).ConnTotal = numPush cs ∧
    (∀ pre suf, cs = pre ++ suf →
      (reached cfg pre).ConnTotal = numPush pre ∧
      (reached cfg pre).ConnTotal ≤ (reached cfg cs).ConnTotal) ∧
    (∀ pre suf, cs = pre ++ suf →
      ∀ k ∈ pushedIds (logOf cfg pre), k ∉ pushedIds (exec (reached cfg pre) suf).2) := by
  have hmax : maxInt = 9223372036854775807 := by simp [maxInt, intBits]
  have hmin : minInt = -9223372036854775808 := by simp [minInt, intBits]
  have hw : ∀ j : Nat, (j : Int) ≤ maxInt → wrapInt j = j := by
    intro j hj
    exact wrapInt_of_inRange _ (by rw [hmin]; omega) hj
  have htotal : ∀ ds : List Call, (numPush ds : Int) ≤ maxInt →
      (reached cfg ds).ConnTotal = numPush ds := by
    intro ds hds
    rw [(reach_inv cfg ds).1]
    exact hw _ hds
  have hids : pushedIds (logOf cfg cs)
      = (List.range (numPush cs)).map (fun k : Nat => (k : Int)) := by
    rw [logOf, exec_pushedIds cs (NewProxyer cfg) 0 (by simp [NewProxyer, wrapInt, intBits])]
    apply List.map_congr_left
    intro j hj
    rw [List.mem_range] at hj
    rw [zero_add]
    exact hw j (by omega)
  have hpw : (pushedIds (logOf cfg cs)).Pairwise (fun a b => a < b) := by
    rw [hids, List.pairwise_map]
    exact (List.pairwise_lt_range _).imp (fun hab => by exact_mod_cast hab)
  have hnd : (pushedIds (logOf cfg cs)).Nodup := hpw.imp (fun hab => ne_of_lt hab)
  refine ⟨hids, hpw, hnd, htotal cs h, ?_, ?_⟩
  · intro pre suf hcs
    have hle : numPush pre ≤ numPush cs := by
      rw [hcs, numPush_append]
      omega
    have hpre : (numPush pre : Int) ≤ maxInt := by omega
    rw [htotal pre hpre, htotal cs h]
    exact ⟨rfl, by exact_mod_cast hle⟩
  · intro pre suf hcs k hk hk2
    rw [hcs, logOf_append, pushedIds_append] at hnd
    exact (List.nodup_append.1 hnd).2.2 hk hk2

/-- C4 on five calls with two pops between the pushes: the ids are 0, 1, 2. -/
theorem pushConnPair_ids_witness :
    pushedIds (logOf cfg0
      [Call.push rec0, Call.pop 0, Call.push rec1, Call.pop 7, Call.push rec0]) = [0, 1, 2] ∧
    (reached cfg0
      [Call.push rec0, Call.pop 0, Call.push rec1, Call.pop 7, Call.push rec0]).ConnTotal = 3 := by
  have h := pushConnPair_ids cfg0
    [Call.push rec0, Call.pop 0, Call.push rec1, Call.pop 7, Call.push rec0] (by decide)
  exact ⟨by rw [h.1]; decide, by rw [h.2.2.2.1]; decide⟩

/-! ## One execution of `DoProxy` -/

/-- What `DoProxy` does when `ConnBackend` fails. -/
theorem DoProxy_error (env : Env) (p : Proxyer) (tgt : Target) (conn : Conn) (e : Error)
    (h : env.ConnBackend = Except.error e) :
    DoProxy env p tgt conn =
      { outcome := Outcome.returned (some e), p := p, server := none,
        inChan := [], outChan := [], trace := [Event.ConnBackend], relayStart := none } := by
  simp only [DoProxy, h]

/-- What `DoProxy` does when `ConnBackend` succeeds and the client connection is no
`*net.TCPConn`: the type assertion panics and only the deferred `Close` runs. -/
theorem DoProxy_panic (env : Env) (p : Proxyer) (tgt : Target) (conn ssConn : Conn)
    (server : Server) (h : env.ConnBackend = Except.ok (ssConn, server))
    (htcp : conn.isTCPConn = false) :
    DoProxy env p tgt conn =
      { outcome := Outcome.panicked, p := p, server := some server,
        inChan := [], outChan := [], trace := [Event.ConnBackend, Event.ssConnClose],
        relayStart := none } := by
  simp [DoProxy, h, htcp, runDeferred]

/-- The receive loop on one value per channel: both values are taken, `inChan` first
when the scheduler says so. -/
theorem recvLoop_one_each (pickIn : Nat → Bool) (f : Frame) (a b : Int)
    (hin : f.inChan = [a]) (hout : f.outChan = [b]) :
    recvLoop pickIn 2 0 f =
      ({ p := f.p,
         server := if pickIn 0 then (f.server.AddInBytes a).AddOutBytes b
                   else (f.server.AddOutBytes b).AddInBytes a,
         inChan := [], outChan := [],
         trace := f.trace ++ (if pickIn 0 then [Event.AddInBytes a, Event.AddOutBytes b]
                              else [Event.AddOutBytes b, Event.AddInBytes a]) }, true) := by
  cases hp : pickIn 0 <;>
    simp [recvLoop, selectRecv, recvIn, recvOut, hin, hout, hp]

/-- What `DoProxy` does when `ConnBackend` succeeds and the client connection is a
`*net.TCPConn`. -/
theorem DoProxy_ok (env : Env) (p : Proxyer) (tgt : Target) (conn ssConn : Conn)
    (server : Server) (h : env.ConnBackend = Except.ok (ssConn, server))
    (htcp : conn.isTCPConn = true) :
    DoProxy env p tgt conn =
      { outcome := Outcome.returned none,
        p := (popConnPair (pushConnPair p
                { LocalLocalAddr := conn.LocalAddr, LocalRemoteAddr := conn.RemoteAddr,
                  RemoteLocalAddr := ssConn.LocalAddr, RemoteRemoteAddr := ssConn.RemoteAddr,
                  Target := tgt.Addr, Latency := env.latency }).p p.ConnTotal).p,
        server := some (if env.pickIn 0
          then ((server.IncreseConnCount.AddInBytes env.inCopied).AddOutBytes
                  env.outCopied).DecreseConnCount
          else ((server.IncreseConnCount.AddOutBytes env.outCopied).AddInBytes
                  env.inCopied).DecreseConnCount),
        inChan := [], outChan := [],
        trace := setupTrace p tgt
          ++ (if env.pickIn 0
              then [Event.AddInBytes env.inCopied, Event.AddOutBytes env.outCopied]
              else [Event.AddOutBytes env.outCopied, Event.AddInBytes env.inCopied])
          ++ [Event.DecreseConnCount, Event.popConnPair p.ConnTotal, Event.ssConnClose],
        relayStart := some
          { p := (pushConnPair p
                { LocalLocalAddr := conn.LocalAddr, LocalRemoteAddr := conn.RemoteAddr,
                  RemoteLocalAddr := ssConn.LocalAddr, RemoteRemoteAddr := ssConn.RemoteAddr,
                  Target := tgt.Addr, Latency := env.latency }).p,
            server := server.IncreseConnCount,
            inChan := [env.inCopied], outChan := [env.outCopied],
            trace := setupTrace p tgt } } := by
  simp only [DoProxy, h, htcp, if_true]
  rw [recvLoop_one_each _ _ env.inCopied env.outCopied (by simp [ CopyNetIO])
    (by simp [ CopyNetIO])]
  cases hp : env.pickIn 0 <;> cases hr : tgt.request <;>
    simp [runDeferred, setupTrace, hr, pushConnPair, CopyNetIO]

/-- The backend handle after `DoProxy`, whichever signal came first. -/
theorem server_after (server : Server) (a b : Int) (c : Bool) :
    (if c then ((server.IncreseConnCount.AddInBytes a).AddOutBytes b).DecreseConnCount
     else ((server.IncreseConnCount.AddOutBytes b).AddInBytes a).DecreseConnCount)
      = { ConnCount := server.ConnCount, InBytes := server.InBytes + a,
          OutBytes := server.OutBytes + b } := by
  cases c <;>
    simp [Server.IncreseConnCount, Server.DecreseConnCount, Server.AddInBytes,
      Server.AddOutBytes]

/-- After a successful connect, a record is registered only past the type assertion. -/
theorem isTCPConn_of_registered (env : Env) (p : Proxyer) (tgt : Target) (conn ssConn : Conn)
    (server : Server) (h : env.ConnBackend = Except.ok (ssConn, server))
    (hreg : ∃ k, Event.pushConnPair k ∈ (DoProxy env p tgt conn).trace) :
    conn.isTCPConn = true := by
  cases htcp : conn.isTCPConn with
  | true => rfl
  | false =>
    rw [DoProxy_panic env p tgt conn ssConn server h htcp] at hreg
    obtain ⟨k, hk⟩ := hreg
    simp at hk

/-- After a successful connect, a relay task is started only past the type assertion. -/
theorem isTCPConn_of_started (env : Env) (p : Proxyer) (tgt : Target) (conn ssConn : Conn)
    (server : Server) (h : env.ConnBackend = Except.ok (ssConn, server))
    (hgo : ∃ ev ∈ (DoProxy env p tgt conn).trace, ev.isGo = true) :
    conn.isTCPConn = true := by
  cases htcp : conn.isTCPConn with
  | true => rfl
  | false =>
    rw [DoProxy_panic env p tgt conn ssConn server h htcp] at hgo
    obtain ⟨ev, hev, hg⟩ := hgo
    simp only [List.mem_cons, List.mem_singleton, List.not_mem_nil, or_false] at hev
    rcases hev with hev | hev <;> subst hev <;> simp [Event.isGo] at hg

/-- C5, as stated, fails on a client connection that is no `*net.TCPConn`: the backend
connect succeeds, the type assertion panics, and `DoProxy` does not return `nil`; it
does not return at all. -/
theorem DoProxy_panics_without_TCPConn :
    (envOk true).ConnBackend = Except.ok (ssConn0, server0) ∧
    (DoProxy (envOk true) (NewProxyer cfg0) tgt0 pipeConn).outcome = Outcome.panicked ∧
    (DoProxy (envOk true) (NewProxyer cfg0) tgt0 pipeConn).outcome ≠ Outcome.returned none := by
  rw [DoProxy_panic (envOk true) (NewProxyer cfg0) tgt0 pipeConn ssConn0 server0 rfl rfl]
  exact ⟨rfl, rfl, by decide⟩

/-- C5 (amended): `DoProxy` returns an error exactly when `ConnBackend` fails, and it
is the error of `ConnBackend`; in that case the tracker is the one it was given (so is
`ConnCount`), no backend handle exists, no relay task was started, and the calls made
hold no metric operation and no start of a relay task; when `ConnBackend` succeeds and
the client connection is a `*net.TCPConn`, `DoProxy` returns `nil`, for every byte
count of the two directions, every arrival order and every result of the request
write. -/
theorem DoProxy_error_iff (env : Env) (p : Proxyer) (tgt : Target) (conn : Conn) :
    (∀ e, (DoProxy env p tgt conn).outcome = Outcome.returned (some e)
        ↔ env.ConnBackend = Except.error e) ∧
    (∀ e, env.ConnBackend = Except.error e →
      (DoProxy env p tgt conn).p = p ∧
      (ConnCount (DoProxy env p tgt conn).p).val = (ConnCount p).val ∧
      (DoProxy env p tgt conn).server = none ∧
      (DoProxy env p tgt conn).relayStart = none ∧
      (∀ ev ∈ (DoProxy env p tgt conn).trace, ev.isMetric = false ∧ ev.isGo = false)) ∧
    (∀ ssConn server, env.ConnBackend = Except.ok (ssConn, server) →
      conn.isTCPConn = true →
      (DoProxy env p tgt conn).outcome = Outcome.returned none) := by
  refine ⟨?_, ?_, ?_⟩
  · intro e
    cases h : env.ConnBackend with
    | error e2 =>
      rw [DoProxy_error env p tgt conn e2 h]
      simp
    | ok v =>
      obtain ⟨ssConn, server⟩ := v
      cases htcp : conn.isTCPConn with
      | true =>
        rw [DoProxy_ok env p tgt conn ssConn server h htcp]
        simp
      | false =>
        rw [DoProxy_panic env p tgt conn ssConn server h htcp]
        simp
  · intro e h
    rw [DoProxy_error env p tgt conn e h]
    simp [Event.isMetric, Event.isGo]
  · intro ssConn server h htcp
    rw [DoProxy_ok env p tgt conn ssConn server h htcp]

/-- The amended C5 on the two scenarios: a failing connect gives back its error and
leaves the fresh tracker as it was, a successful one on a `*net.TCPConn` returns `nil`. -/
theorem DoProxy_error_iff_witness :
    (DoProxy envFail (NewProxyer cfg0) tgt0 conn0).outcome
      = Outcome.returned (some { msg := "no backend" }) ∧
    (DoProxy envFail (NewProxyer cfg0) tgt0 conn0).p = NewProxyer cfg0 ∧
    (DoProxy envFail (NewProxyer cfg0) tgt0 conn0).trace = [Event.ConnBackend] ∧
    (DoProxy (envOk true) (NewProxyer cfg0) tgt0 conn0).outcome = Outcome.returned none :=
  ⟨((DoProxy_error_iff envFail (NewProxyer cfg0) tgt0 conn0).1 _).2 rfl,
   ((DoProxy_error_iff envFail (NewProxyer cfg0) tgt0 conn0).2.1 _ rfl).1,
   by decide,
   (DoProxy_error_iff (envOk true) (NewProxyer cfg0) tgt0 conn0).2.2 _ _ rfl rfl⟩

/-- C6, as stated, fails on a client connection that is no `*net.TCPConn`: after the
successful connect the type assertion panics, and `DoProxy` has made none of the four
metric calls and left the backend handle as `ConnBackend` gave it. -/
theorem DoProxy_no_metrics_without_TCPConn :
    (envOk true).ConnBackend = Except.ok (ssConn0, server0) ∧
    (DoProxy (envOk true) (NewProxyer cfg0) tgt0 pipeConn).trace.count
      Event.IncreseConnCount = 0 ∧
    (DoProxy (envOk true) (NewProxyer cfg0) tgt0 pipeConn).trace.count
      Event.DecreseConnCount = 0 ∧
    (DoProxy (envOk true) (NewProxyer cfg0) tgt0 pipeConn).trace.filter Event.isAddIn = [] ∧
    (DoProxy (envOk true) (NewProxyer cfg0) tgt0 pipeConn).trace.filter Event.isAddOut = [] ∧
    (DoProxy (envOk true) (NewProxyer cfg0) tgt0 pipeConn).server = some server0 := by
  rw [DoProxy_panic (envOk true) (NewProxyer cfg0) tgt0 pipeConn ssConn0 server0 rfl rfl]
  exact ⟨rfl, by decide, by decide, by decide, by decide, rfl⟩

/-- C6 (amended): after a successful connect, on a client connection that is a
`*net.TCPConn`, `DoProxy` calls `IncreseConnCount` once, `DecreseConnCount` once and
later than the increase, `AddInBytes` once and `AddOutBytes` once, each with the count
of its own channel, whatever the scheduler and the two counts are. The calls act on
the backend handle: when the relay tasks have been started the handle is the one of
`ConnBackend` with its gauge raised by one, and at the end its gauge is back and its
in-bytes and out-bytes counters are raised by the two counts. `DoProxy` returns with
both channels empty; and the receive loop, started on any frame with one value on each
channel, runs both iterations without blocking, takes one value from each channel,
leaves both empty and has added each value to its own counter of the handle. -/
theorem DoProxy_metrics_once (env : Env) (p : Proxyer) (tgt : Target) (conn ssConn : Conn)
    (server : Server) (h : env.ConnBackend = Except.ok (ssConn, server))
    (htcp : conn.isTCPConn = true) :
    (DoProxy env p tgt conn).trace.count Event.IncreseConnCount = 1 ∧
    (DoProxy env p tgt conn).trace.count Event.DecreseConnCount = 1 ∧
    (∃ l1 l2 l3, (DoProxy env p tgt conn).trace
        = l1 ++ [Event.IncreseConnCount] ++ l2 ++ [Event.DecreseConnCount] ++ l3) ∧
    (DoProxy env p tgt conn).trace.filter Event.isAddIn = [Event.AddInBytes env.inCopied] ∧
    (DoProxy env p tgt conn).trace.filter Event.isAddOut
      = [Event.AddOutBytes env.outCopied] ∧
    (DoProxy env p tgt conn).relayStart.map Frame.server
      = some { ConnCount := server.ConnCount + 1, InBytes := server.InBytes,
               OutBytes := server.OutBytes } ∧
    (DoProxy env p tgt conn).server
      = some { ConnCount := server.ConnCount, InBytes := server.InBytes + env.inCopied,
               OutBytes := server.OutBytes + env.outCopied } ∧
    (DoProxy env p tgt conn).inChan = [] ∧
    (DoProxy env p tgt conn).outChan = [] ∧
    (DoProxy env p tgt conn).outcome = Outcome.returned none ∧
    (∀ (pickIn : Nat → Bool) (f : Frame) (a b : Int), f.inChan = [a] → f.outChan = [b] →
      (recvLoop pickIn 2 0 f).2 = true ∧
      (recvLoop pickIn 2 0 f).1.inChan = [] ∧
      (recvLoop pickIn 2 0 f).1.outChan = [] ∧
      (recvLoop pickIn 2 0 f).1.server
        = { ConnCount := f.server.ConnCount, InBytes := f.server.InBytes + a,
            OutBytes := f.server.OutBytes + b } ∧
      ((recvLoop pickIn 2 0 f).1.trace = f.trace ++ [Event.AddInBytes a, Event.AddOutBytes b] ∨
       (recvLoop pickIn 2 0 f).1.trace
         = f.trace ++ [Event.AddOutBytes b, Event.AddInBytes a])) := by
  rw [DoProxy_ok env p tgt conn ssConn server h htcp, server_after]
  refine ⟨?_, ?_, ?_, ?_, ?_, rfl, rfl, rfl, rfl, rfl, ?_⟩
  · cases hp : env.pickIn 0 <;> cases hr : tgt.request <;>
      simp [setupTrace, hr, List.count_cons]
  · cases hp : env.pickIn 0 <;> cases hr : tgt.request <;>
      simp [setupTrace, hr, List.count_cons]
  · refine ⟨[Event.ConnBackend, Event.pushConnPair p.ConnTotal],
      (match tgt.request with
        | some bytes => [Event.requestWrite bytes]
        | none => [])
      ++ [Event.goCopyNetIO Direction.clientToShadowsocks p.cfg.Timeout,
          Event.goCopyNetIO Direction.shadowsocksToClient p.cfg.Timeout]
      ++ (if env.pickIn 0
          then [Event.AddInBytes env.inCopied, Event.AddOutBytes env.outCopied]
          else [Event.AddOutBytes env.outCopied, Event.AddInBytes env.inCopied]),
      [Event.popConnPair p.ConnTotal, Event.ssConnClose], ?_⟩
    simp [setupTrace]
  · cases hp : env.pickIn 0 <;> cases hr : tgt.request <;>
      simp [setupTrace, hr, List.filter_cons, Event.isAddIn]
  · cases hp : env.pickIn 0 <;> cases hr : tgt.request <;>
      simp [setupTrace, hr, List.filter_cons, Event.isAddOut]
  · intro pickIn f a b hin hout
    rw [recvLoop_one_each pickIn f a b hin hout]
    cases hp : pickIn 0 <;>
      simp [Server.AddInBytes, Server.AddOutBytes]

/-- The amended C6 on the scenario in which the signal of `outChan` arrives first and
the client direction reports 10 bytes, the backend direction 20. -/
theorem DoProxy_metrics_once_witness :
    (DoProxy (envOk false) (NewProxyer cfg0) tgt1 conn0).trace.count Event.IncreseConnCount = 1 ∧
    (DoProxy (envOk false) (NewProxyer cfg0) tgt1 conn0).trace.count Event.DecreseConnCount = 1 ∧
    (DoProxy (envOk false) (NewProxyer cfg0) tgt1 conn0).trace.filter Event.isAddIn
      = [Event.AddInBytes 10] ∧
    (DoProxy (envOk false) (NewProxyer cfg0) tgt1 conn0).trace.filter Event.isAddOut
      = [Event.AddOutBytes 20] ∧
    (DoProxy (envOk false) (NewProxyer cfg0) tgt1 conn0).relayStart.map Frame.server
      = some { ConnCount := 1, InBytes := 0, OutBytes := 0 } ∧
    (DoProxy (envOk false) (NewProxyer cfg0) tgt1 conn0).server
      = some { ConnCount := 0, InBytes := 10, OutBytes := 20 } ∧
    (DoProxy (envOk false) (NewProxyer cfg0) tgt1 conn0).trace
      = [Event.ConnBackend, Event.pushConnPair 0, Event.IncreseConnCount,
         Event.requestWrite [71, 69, 84],
         Event.goCopyNetIO Direction.clientToShadowsocks 30,
         Event.goCopyNetIO Direction.shadowsocksToClient 30,
         Event.AddOutBytes 20, Event.AddInBytes 10,
         Event.DecreseConnCount, Event.popConnPair 0, Event.ssConnClose] :=
  have h := DoProxy_metrics_once (envOk false) (NewProxyer cfg0) tgt1 conn0 ssConn0 server0
    rfl rfl
  ⟨h.1, h.2.1, h.2.2.2.1, h.2.2.2.2.1, h.2.2.2.2.2.1, h.2.2.2.2.2.2.1, by decide⟩

/-- C7: in an execution with a successful connect in which the relay tasks were
started, so that both copies report, the only `AddInBytes` call carries the count of
the copy from the client to the backend and the only `AddOutBytes` call the count of
the copy from the backend to the client, under every scheduler; the backend handle
ends with its in-bytes and out-bytes counters raised by exactly those two counts, and
it is the same handle under any other scheduler. -/
theorem DoProxy_bytes_by_channel (env : Env) (p : Proxyer) (tgt : Target) (conn ssConn : Conn)
    (server : Server) (pickOther : Nat → Bool)
    (h : env.ConnBackend = Except.ok (ssConn, server))
    (hgo : ∃ ev ∈ (DoProxy env p tgt conn).trace, ev.isGo = true) :
    (DoProxy env p tgt conn).trace.filter Event.isAddIn = [Event.AddInBytes env.inCopied] ∧
    (DoProxy env p tgt conn).trace.filter Event.isAddOut
      = [Event.AddOutBytes env.outCopied] ∧
    (DoProxy env p tgt conn).server
      = some { ConnCount := server.ConnCount, InBytes := server.InBytes + env.inCopied,
               OutBytes := server.OutBytes + env.outCopied } ∧
    (DoProxy { env with pickIn := pickOther } p tgt conn).server
      = (DoProxy env p tgt conn).server ∧
    (DoProxy { env with pickIn := pickOther } p tgt conn).trace.filter Event.isAddIn
      = [Event.AddInBytes env.inCopied] ∧
    (DoProxy { env with pickIn := pickOther } p tgt conn).trace.filter Event.isAddOut
      = [Event.AddOutBytes env.outCopied] := by
  have htcp := isTCPConn_of_started env p tgt conn ssConn server h hgo
  have hm := DoProxy_ok env p tgt conn ssConn server h htcp
  have hm2 := DoProxy_ok { env with pickIn := pickOther } p tgt conn ssConn server h htcp
  rw [server_after] at hm hm2
  rw [hm, hm2]
  refine ⟨?_, ?_, rfl, rfl, ?_, ?_⟩
  · cases hp : env.pickIn 0 <;> cases hr : tgt.request <;>
      simp [setupTrace, hr, List.filter_cons, Event.isAddIn]
  · cases hp : env.pickIn 0 <;> cases hr : tgt.request <;>
      simp [setupTrace, hr, List.filter_cons, Event.isAddOut]
  · cases hp : pickOther 0 <;> cases hr : tgt.request <;>
      simp [setupTrace, hr, hp, List.filter_cons, Event.isAddIn]
  · cases hp : pickOther 0 <;> cases hr : tgt.request <;>
      simp [setupTrace, hr, hp, List.filter_cons, Event.isAddOut]

/-- C7 on the scenario of the spec: the client sends 10 bytes and the backend 20; in
both arrival orders the calls are `AddInBytes(10)` and `AddOutBytes(20)` and the
backend handle ends with 10 in-bytes and 20 out-bytes. -/
theorem DoProxy_bytes_by_channel_witness :
    (DoProxy (envOk true) (NewProxyer cfg0) tgt0 conn0).trace.filter Event.isAddIn
      = [Event.AddInBytes 10] ∧
    (DoProxy (envOk true) (NewProxyer cfg0) tgt0 conn0).trace.filter Event.isAddOut
      = [Event.AddOutBytes 20] ∧
    (DoProxy (envOk true) (NewProxyer cfg0) tgt0 conn0).server
      = some { ConnCount := 0, InBytes := 10, OutBytes := 20 } ∧
    (DoProxy (envOk false) (NewProxyer cfg0) tgt0 conn0).server
      = (DoProxy (envOk true) (NewProxyer cfg0) tgt0 conn0).server ∧
    (DoProxy (envOk false) (NewProxyer cfg0) tgt0 conn0).trace.filter Event.isAddIn
      = [Event.AddInBytes 10] ∧
    (DoProxy (envOk false) (NewProxyer cfg0) tgt0 conn0).trace.filter Event.isAddOut
      = [Event.AddOutBytes 20] :=
  DoProxy_bytes_by_channel (envOk true) (NewProxyer cfg0) tgt0 conn0 ssConn0 server0
    (fun _ => false) rfl (by decide)

/-- C10, as stated, fails on a client connection that is no `*net.TCPConn`: the
backend connect succeeds and the target carries request bytes, yet the type assertion
panics before anything else is done; the only calls are `ConnBackend` and the deferred
`Close`, no record is registered, the count of the backend is not increased and the
request bytes are never written. -/
theorem DoProxy_no_setup_without_TCPConn :
    (envOk true).ConnBackend = Except.ok (ssConn0, server0) ∧
    tgt1.request = some [71, 69, 84] ∧
    (DoProxy (envOk true) (NewProxyer cfg0) tgt1 pipeConn).trace
      = [Event.ConnBackend, Event.ssConnClose] ∧
    (DoProxy (envOk true) (NewProxyer cfg0) tgt1 pipeConn).trace.filter Event.isWrite = [] ∧
    (DoProxy (envOk true) (NewProxyer cfg0) tgt1 pipeConn).p = NewProxyer cfg0 ∧
    (DoProxy (envOk true) (NewProxyer cfg0) tgt1 pipeConn).relayStart = none := by
  rw [DoProxy_panic (envOk true) (NewProxyer cfg0) tgt1 pipeConn ssConn0 server0 rfl rfl]
  exact ⟨rfl, rfl, rfl, by decide, rfl, rfl⟩

/-- C10 (amended): after a successful connect, on a client connection that is a
`*net.TCPConn`, the calls of `DoProxy` begin with `ConnBackend`, `pushConnPair`,
`IncreseConnCount`, then the write of the pre-read request bytes when the target
carries some and nothing when it carries none, then the start of the two relay tasks.
When the relay tasks have been started exactly these calls have been made, the tracker
maps the id that `pushConnPair` returned to the record of this connection, and the
gauge of the backend handle is raised by one. No relay task is started and nothing is
written to the backend stream after that, so a target without request bytes sees no
write at all. -/
theorem DoProxy_setup_before_relay (env : Env) (p : Proxyer) (tgt : Target)
    (conn ssConn : Conn) (server : Server)
    (h : env.ConnBackend = Except.ok (ssConn, server))
    (htcp : conn.isTCPConn = true) :
    ∃ start rest, (DoProxy env p tgt conn).relayStart = some start ∧
      start.trace
        = [Event.ConnBackend, Event.pushConnPair (pushConnPair p
              { LocalLocalAddr := conn.LocalAddr, LocalRemoteAddr := conn.RemoteAddr,
                RemoteLocalAddr := ssConn.LocalAddr, RemoteRemoteAddr := ssConn.RemoteAddr,
                Target := tgt.Addr, Latency := env.latency }).val,
            Event.IncreseConnCount]
          ++ (match tgt.request with
              | some bytes => [Event.requestWrite bytes]
              | none => [])
          ++ [Event.goCopyNetIO Direction.clientToShadowsocks p.cfg.Timeout,
              Event.goCopyNetIO Direction.shadowsocksToClient p.cfg.Timeout] ∧
      (DoProxy env p tgt conn).trace = start.trace ++ rest ∧
      ConnMap.lookup start.p.ConnTracks (pushConnPair p
              { LocalLocalAddr := conn.LocalAddr, LocalRemoteAddr := conn.RemoteAddr,
                RemoteLocalAddr := ssConn.LocalAddr, RemoteRemoteAddr := ssConn.RemoteAddr,
                Target := tgt.Addr, Latency := env.latency }).val
        = some { LocalLocalAddr := conn.LocalAddr, LocalRemoteAddr := conn.RemoteAddr,
                 RemoteLocalAddr := ssConn.LocalAddr, RemoteRemoteAddr := ssConn.RemoteAddr,
                 Target := tgt.Addr, Latency := env.latency } ∧
      start.server = { ConnCount := server.ConnCount + 1, InBytes := server.InBytes,
                       OutBytes := server.OutBytes } ∧
      (∀ ev ∈ rest, ev.isGo = false ∧ ev.isWrite = false) ∧
      (tgt.request = none → ∀ ev ∈ (DoProxy env p tgt conn).trace, ev.isWrite = false) ∧
      (∀ bytes, tgt.request = some bytes →
        (DoProxy env p tgt conn).trace.filter Event.isWrite = [Event.requestWrite bytes]) := by
  rw [DoProxy_ok env p tgt conn ssConn server h htcp]
  refine ⟨_, (if env.pickIn 0
      then [Event.AddInBytes env.inCopied, Event.AddOutBytes env.outCopied]
      else [Event.AddOutBytes env.outCopied, Event.AddInBytes env.inCopied])
    ++ [Event.DecreseConnCount, Event.popConnPair p.ConnTotal, Event.ssConnClose],
    rfl, ?_, ?_, ?_, rfl, ?_, ?_, ?_⟩
  · simp [setupTrace, pushConnPair]
  · simp
  · exact lookup_assign_self _ _ _
  · cases hp : env.pickIn 0 <;> simp [Event.isGo, Event.isWrite]
  · intro hr
    cases hp : env.pickIn 0 <;> simp [setupTrace, hr, Event.isWrite]
  · intro bytes hr
    cases hp : env.pickIn 0 <;> simp [setupTrace, hr, List.filter_cons, Event.isWrite]

/-- The amended C10 on a target with three request bytes and on one with none. -/
theorem DoProxy_setup_before_relay_witness :
    (∃ start rest, (DoProxy (envOk true) (NewProxyer cfg0) tgt1 conn0).relayStart = some start ∧
        start.trace
          = [Event.ConnBackend, Event.pushConnPair 0, Event.IncreseConnCount,
              Event.requestWrite [71, 69, 84],
              Event.goCopyNetIO Direction.clientToShadowsocks 30,
              Event.goCopyNetIO Direction.shadowsocksToClient 30] ∧
        (DoProxy (envOk true) (NewProxyer cfg0) tgt1 conn0).trace = start.trace ++ rest ∧
        ConnMap.lookup start.p.ConnTracks 0 = some rec0 ∧
        (∀ ev ∈ rest, ev.isGo = false ∧ ev.isWrite = false)) ∧
    (∀ ev ∈ (DoProxy (envOk true) (NewProxyer cfg0) tgt0 conn0).trace, ev.isWrite = false) := by
  obtain ⟨start, rest, h0, h1, h2, h3, _, h4, _, _⟩ :=
    DoProxy_setup_before_relay (envOk true) (NewProxyer cfg0) tgt1 conn0 ssConn0 server0
      rfl rfl
  obtain ⟨_, _, _, _, _, _, _, _, h5, _⟩ :=
    DoProxy_setup_before_relay (envOk true) (NewProxyer cfg0) tgt0 conn0 ssConn0 server0
      rfl rfl
  exact ⟨⟨start, rest, h0, h1, h2, h3, h4⟩, h5 rfl⟩

/-- C8, as stated, fails on the tracker that `maxCalls` leaves: its counter stands at
the largest `int`, the record is registered under that id, the push inside `DoProxy`
wraps the counter, and after `DoProxy` has returned `ConnTotal` is the smallest `int`,
not larger by one. -/
theorem DoProxy_wraps_ConnTotal :
    reached cfg0 maxCalls = pMax ∧
    (envOk true).ConnBackend = Except.ok (ssConn0, server0) ∧
    Event.pushConnPair maxInt ∈ (DoProxy (envOk true) (reached cfg0 maxCalls) tgt0 conn0).trace ∧
    (DoProxy (envOk true) (reached cfg0 maxCalls) tgt0 conn0).outcome = Outcome.returned none ∧
    (DoProxy (envOk true) (reached cfg0 maxCalls) tgt0 conn0).p.ConnTotal = minInt ∧
    (DoProxy (envOk true) (reached cfg0 maxCalls) tgt0 conn0).p.ConnTotal
      ≠ (reached cfg0 maxCalls).ConnTotal + 1 := by
  have hr : reached cfg0 maxCalls = pMax := by
    rw [reached, exec_maxCalls]
  rw [hr, DoProxy_ok (envOk true) pMax tgt0 conn0 ssConn0 server0 rfl rfl]
  refine ⟨rfl, rfl, ?_, rfl, ?_, ?_⟩
  · simp [setupTrace, pMax]
  · show wrapInt (maxInt + 1) = minInt
    simp only [wrapInt, maxInt, minInt, intBits]
    norm_num
  · show wrapInt (maxInt + 1) ≠ maxInt + 1
    simp only [wrapInt, maxInt, intBits]
    norm_num

/-- C8 (amended): on a tracker built from `NewProxyer` by a sequence of calls with
fewer pushes than the largest `int`, an execution of `DoProxy` whose backend connect
succeeded and in which the connection record was registered returns `nil` and ends
with `DecreseConnCount`, `popConnPair` of the id that `pushConnPair` returned, and
`Close` of the backend stream, in this order and each once; afterwards `ConnTracks` is
the map it was before the call, `ConnTotal` is larger by one, and the
active-connection gauge of the backend handle is what it was. -/
theorem DoProxy_releases (cfg : Config) (cs : List Call) (env : Env) (tgt : Target)
    (conn ssConn : Conn) (server : Server)
    (hno : (numPush cs : Int) < maxInt)
    (hok : env.ConnBackend = Except.ok (ssConn, server))
    (hreg : ∃ k, Event.pushConnPair k ∈ (DoProxy env (reached cfg cs) tgt conn).trace) :
    (DoProxy env (reached cfg cs) tgt conn).outcome = Outcome.returned none ∧
    (∃ pre, (DoProxy env (reached cfg cs) tgt conn).trace
        = pre ++ [Event.DecreseConnCount, Event.popConnPair (reached cfg cs).ConnTotal,
                  Event.ssConnClose] ∧
      Event.pushConnPair (reached cfg cs).ConnTotal ∈ pre ∧
      Event.IncreseConnCount ∈ pre ∧
      (∀ ev ∈ pre, ev.isRelease = false)) ∧
    (DoProxy env (reached cfg cs) tgt conn).p.ConnTracks = (reached cfg cs).ConnTracks ∧
    (DoProxy env (reached cfg cs) tgt conn).p.ConnTotal = (reached cfg cs).ConnTotal + 1 ∧
    (DoProxy env (reached cfg cs) tgt conn).p.cfg = (reached cfg cs).cfg ∧
    (∃ sv, (DoProxy env (reached cfg cs) tgt conn).server = some sv ∧
      sv.ConnCount = server.ConnCount) := by
  have hmax : maxInt = 9223372036854775807 := by simp [maxInt, intBits]
  have hmin : minInt = -9223372036854775808 := by simp [minInt, intBits]
  have htcp := isTCPConn_of_registered env (reached cfg cs) tgt conn ssConn server hok hreg
  obtain ⟨i1, i2⟩ := reach_inv cfg cs
  have hn : wrapInt (numPush cs) = numPush cs :=
    wrapInt_of_inRange _ (by rw [hmin]; omega) (by omega)
  have hfresh : (reached cfg cs).ConnTotal ∉ ConnMap.keys (reached cfg cs).ConnTracks :=
    next_id_fresh (reached cfg cs) (numPush cs) i1 i2 (by rw [hmax] at hno; norm_num; omega)
  rw [DoProxy_ok env (reached cfg cs) tgt conn ssConn server hok htcp, server_after]
  refine ⟨rfl, ?_, ?_, ?_, rfl, ⟨_, rfl, rfl⟩⟩
  · refine ⟨setupTrace (reached cfg cs) tgt
        ++ (if env.pickIn 0
            then [Event.AddInBytes env.inCopied, Event.AddOutBytes env.outCopied]
            else [Event.AddOutBytes env.outCopied, Event.AddInBytes env.inCopied]), rfl, ?_, ?_, ?_⟩
    · simp [setupTrace]
    · simp [setupTrace]
    · cases hp : env.pickIn 0 <;> cases hr : tgt.request <;>
        simp [setupTrace, hr, Event.isRelease]
  · show ConnMap.delete (ConnMap.assign (reached cfg cs).ConnTracks (reached cfg cs).ConnTotal _)
        (reached cfg cs).ConnTotal = (reached cfg cs).ConnTracks
    rw [ConnMap.assign, delete_cons, if_pos rfl, delete_delete, delete_of_not_mem _ _ hfresh]
  · show wrapInt ((reached cfg cs).ConnTotal + 1) = (reached cfg cs).ConnTotal + 1
    rw [i1, hn]
    exact wrapInt_of_inRange _ (by rw [hmin]; omega) (by omega)

/-- The amended C8 on a tracker holding one live entry: `DoProxy` leaves the map as it
found it, the counter one higher and the gauge of the backend handle at zero. -/
theorem DoProxy_releases_witness :
    (DoProxy (envOk false) (reached cfg0 [Call.push rec1]) tgt1 conn0).outcome
      = Outcome.returned none ∧
    (DoProxy (envOk false) (reached cfg0 [Call.push rec1]) tgt1 conn0).p.ConnTracks
      = [(0, rec1)] ∧
    (DoProxy (envOk false) (reached cfg0 [Call.push rec1]) tgt1 conn0).p.ConnTotal = 2 ∧
    (DoProxy (envOk false) (reached cfg0 [Call.push rec1]) tgt1 conn0).trace
      = [Event.ConnBackend, Event.pushConnPair 1, Event.IncreseConnCount,
         Event.requestWrite [71, 69, 84],
         Event.goCopyNetIO Direction.clientToShadowsocks 30,
         Event.goCopyNetIO Direction.shadowsocksToClient 30,
         Event.AddOutBytes 20, Event.AddInBytes 10,
         Event.DecreseConnCount, Event.popConnPair 1, Event.ssConnClose] := by
  have h := DoProxy_releases cfg0 [Call.push rec1] (envOk false) tgt1 conn0 ssConn0 server0
    (by simp [numPush, maxInt, intBits]) rfl ⟨1, by decide⟩
  refine ⟨h.1, ?_, ?_, by decide⟩
  · rw [h.2.2.1]
    decide
  · rw [h.2.2.2.1]
    decide

end Hass
